import Mathlib

/-!
Verification of the Gromacs XVG parsing module (`alchemlyb/parsing/gmx.py`).

The file is modelled as a list of lines (`File`).  Numeric values are
modelled as exact rationals `ℚ`; Python exceptions are modelled with
`Except PyErr`.  Python string operations are re-implemented structurally
on `List Char` so that all definitions evaluate inside the kernel.
-/

attribute [local semireducible] Rat.mul Rat.inv Rat.add Rat.sub

/-- Python exception kinds raised by the parsing code. -/
inductive PyErr where
  | indexError
  | keyError
  | valueError
  | typeError
  | nameError
  | notImplementedError
deriving Repr, DecidableEq

/-- A text file, as the line-iterable stream `anyopen` yields. -/
abbrev File := List String

/-- Lift an `Option` to `Except`, raising `e` on `none` (a Python raise). -/
def excE (e : PyErr) : Option α → Except PyErr α
  | some a => .ok a
  | none => .error e

/-- Build a string from an explicit character list. -/
def mkStr (cs : List Char) : String := String.mk cs

/-- Is `pat` a contiguous sublist of the second argument? -/
def infixOfL (pat : List Char) : List Char → Bool
  | [] => pat.isEmpty
  | c :: rest => pat.isPrefixOf (c :: rest) || infixOfL pat rest

/-- Python `sub in s`: substring containment. -/
def strContains (s sub : String) : Bool := infixOfL sub.data s.data

/-- Python `s.startswith(t)`. -/
def strStartsWith (s t : String) : Bool := t.data.isPrefixOf s.data

/-- Python `s.strip()`: remove surrounding whitespace. -/
def strTrim (s : String) : String :=
  mkStr (((s.data.dropWhile Char.isWhitespace).reverse.dropWhile Char.isWhitespace).reverse)

/-- Python `s.strip(chars)`: remove any of the given characters from both ends. -/
def pyStrip (s : String) (cs : List Char) : String :=
  mkStr (((s.data.dropWhile (fun c => cs.contains c)).reverse.dropWhile
    (fun c => cs.contains c)).reverse)

/-- Python `s.replace(c, '')` for a one-character pattern. -/
def removeChar (s : String) (c : Char) : String :=
  mkStr (s.data.filter (fun x => x ≠ c))

/-- Helper for `strSplitOn`: fuel-indexed splitter on character lists.
The fuel always suffices because every step consumes at least one character. -/
def splitOnAuxL (sep : List Char) : Nat → List Char → List Char → List (List Char)
  | 0, acc, rest => [acc.reverse ++ rest]
  | _ + 1, acc, [] => [acc.reverse]
  | fuel + 1, acc, c :: rest =>
    if sep.isPrefixOf (c :: rest) then
      acc.reverse :: splitOnAuxL sep fuel [] ((c :: rest).drop sep.length)
    else
      splitOnAuxL sep fuel (c :: acc) rest

/-- Python `s.split(sep)` for a non-empty separator (the only use in the source). -/
def strSplitOn (s sep : String) : List String :=
  if sep.data.isEmpty then [s]
  else (splitOnAuxL sep.data (s.data.length + 1) [] s.data).map mkStr

/-- Helper for `pySplit`: split on single whitespace characters. -/
def splitWSAux : List Char → List Char → List (List Char)
  | acc, [] => [acc.reverse]
  | acc, c :: rest =>
    if c.isWhitespace then acc.reverse :: splitWSAux [] rest
    else splitWSAux (c :: acc) rest

/-- Python `s.split()` (no argument): split on whitespace runs, dropping empty parts. -/
def pySplit (s : String) : List String :=
  ((splitWSAux [] s.data).map mkStr).filter (fun t => t ≠ "")

/-- Python `l[i]` on lists: negative indices count from the end; out of range is `none`. -/
def pyGet? (l : List α) (i : Int) : Option α :=
  if i < 0 then
    let j := i + l.length
    if j < 0 then none else l.get? j.toNat
  else l.get? i.toNat

/-- Numeric value of a digit-character list (most significant first). -/
def digitsToNat (cs : List Char) : ℕ :=
  cs.foldl (fun a c => a * 10 + (c.toNat - 48)) 0

/-- Parse a non-empty all-digit character list. -/
def digitsVal? (cs : List Char) : Option ℕ :=
  if cs.isEmpty then none
  else if cs.all Char.isDigit then some (digitsToNat cs) else none

/-- Python `int(s)` on strings: optional surrounding whitespace, optional sign, digits. -/
def pyInt? (s : String) : Option Int :=
  match (strTrim s).data with
  | '+' :: r => (digitsVal? r).map (fun n => (n : Int))
  | '-' :: r => (digitsVal? r).map (fun n => -(n : Int))
  | r => (digitsVal? r).map (fun n => (n : Int))

/-- Mantissa of a decimal literal: digits with an optional single point. -/
def mantissa? (cs : List Char) : Option ℚ :=
  match cs.findIdx? (fun c => c == '.') with
  | none => (digitsVal? cs).map (fun n => (n : ℚ))
  | some i =>
    let ip := cs.take i
    let fp := cs.drop (i + 1)
    if fp.any (fun c => c == '.') then none
    else if ip.isEmpty && fp.isEmpty then none
    else if (ip.isEmpty || ip.all Char.isDigit) && (fp.isEmpty || fp.all Char.isDigit) then
      some ((digitsToNat ip : ℚ) + (digitsToNat fp : ℚ) / (10 : ℚ) ^ fp.length)
    else none

/-- Exponent of a decimal literal: optional sign and digits. -/
def expVal? (cs : List Char) : Option Int :=
  match cs with
  | '+' :: r => (digitsVal? r).map (fun n => (n : Int))
  | '-' :: r => (digitsVal? r).map (fun n => -(n : Int))
  | r => (digitsVal? r).map (fun n => (n : Int))

/-- Python `float(s)`: decimal literal with optional sign, point and exponent
(`inf`/`nan` forms are outside the model). -/
def pyFloat? (s : String) : Option ℚ :=
  let t := (strTrim s).data
  let signAndRest : ℚ × List Char :=
    match t with
    | '+' :: r => (1, r)
    | '-' :: r => (-1, r)
    | r => (1, r)
  let sgn := signAndRest.1
  let cs := signAndRest.2
  match cs.findIdx? (fun c => c == 'e' || c == 'E') with
  | none => (mantissa? cs).map (fun m => sgn * m)
  | some i =>
    match mantissa? (cs.take i), expVal? (cs.drop (i + 1)) with
    | some m, some e => some (sgn * m * (10 : ℚ) ^ e)
    | _, _ => none

/-- Python `int(x)` on a float: truncation toward zero. -/
def pyTrunc (q : ℚ) : Int := Int.tdiv q.num (q.den : Int)

/-- A Python value used as a frame-column key: a numeric-literal scalar or a
flat tuple/list of scalars (the two shapes the restricted `eval` below can
produce), or a string (the lambda-name keys that the index-building step
assigns into `extract_u_nk`'s frame next to the literal-keyed data columns;
`evalLiteral?` itself never yields `.str` -- see `evalLiteral?_no_str`). -/
inductive PyVal where
  | num : ℚ → PyVal
  | tup : List ℚ → PyVal
  | str : String → PyVal
deriving Repr, DecidableEq

instance : Inhabited PyVal := ⟨.num 0⟩

/-- Comma-separated float elements of a tuple/list body. -/
def elemsVal? (parts : List String) : Option (List ℚ) := parts.mapM pyFloat?

/-- Python `eval` restricted to numeric literals: a scalar, a parenthesised
tuple (a single element without trailing comma is just a grouped scalar),
a bracketed list, or a bare comma-separated tuple. -/
def evalLiteral? (s : String) : Option PyVal :=
  let t := strTrim s
  if t = "" then none
  else
    let cs := t.data
    if cs.head? = some '(' && cs.getLast? = some ')' then
      let inner := strTrim (mkStr ((cs.drop 1).dropLast))
      if inner = "" then some (.tup [])
      else
        let parts := strSplitOn inner ","
        if (parts.getLast?.map strTrim) = some "" then
          (elemsVal? parts.dropLast).map .tup
        else
          match parts with
          | [p] => (pyFloat? p).map .num
          | _ => (elemsVal? parts).map .tup
    else if cs.head? = some '[' && cs.getLast? = some ']' then
      let inner := strTrim (mkStr ((cs.drop 1).dropLast))
      if inner = "" then some (.tup [])
      else
        let parts := strSplitOn inner ","
        let parts := if (parts.getLast?.map strTrim) = some "" then parts.dropLast else parts
        (elemsVal? parts).map .tup
    else
      let parts := strSplitOn t ","
      if (parts.getLast?.map strTrim) = some "" then
        (elemsVal? parts.dropLast).map .tup
      else
        match parts with
        | [p] => (pyFloat? p).map .num
        | _ => (elemsVal? parts).map .tup

/-- Python `d[k] = v` on a dict: update in place if the key exists, else append. -/
def dictInsert [DecidableEq κ] (d : List (κ × ν)) (k : κ) (v : ν) : List (κ × ν) :=
  match d with
  | [] => [(k, v)]
  | (k', v') :: rest => if k' = k then (k', v) :: rest else (k', v') :: dictInsert rest k v

/-- Python `d[k]` on a dict: value of the (unique) matching key. -/
def dictGet? [DecidableEq κ] (d : List (κ × ν)) (k : κ) : Option ν :=
  match d with
  | [] => none
  | (k', v') :: rest => if k' = k then some v' else dictGet? rest k

/-- `Except`-valued map that stops at the first error (Python loop with raises). -/
def mapME (f : α → Except PyErr β) : List α → Except PyErr (List β)
  | [] => .ok []
  | x :: xs => do
    let y ← f x
    let ys ← mapME f xs
    pure (y :: ys)

/-- `Except`-valued map with a running index (Python `enumerate`). -/
def mapIdxE (f : Nat → α → Except PyErr β) : Nat → List α → Except PyErr (List β)
  | _, [] => .ok []
  | i, x :: xs => do
    let y ← f i x
    let ys ← mapIdxE f (i + 1) xs
    pure (y :: ys)

/-- `Except`-valued left fold (the metadata scan loops). -/
def foldME (f : σ → α → Except PyErr σ) : σ → List α → Except PyErr σ
  | st, [] => .ok st
  | st, x :: xs => do
    let st' ← f st x
    foldME f st' xs

/-! ## The table provider -/

/-- Modelled from the spec: the out-of-scope table provider ("construction of
generic two-dimensional labeled tables from column names and rows"), an
addressable-by-name, addressable-by-position columnar container.  Rows are
stored row-major; the contract requires every row to match the header. -/
structure DataFrame where
  columns : List String
  rows : List (List ℚ)
deriving Repr, DecidableEq

/-- Modelled from the spec: the table provider's constructor; each numeric row
must have exactly one value per column name. -/
def mkDataFrame (cols : List String) (rows : List (List ℚ)) : Except PyErr DataFrame :=
  if rows.all (fun r => r.length = cols.length) then .ok ⟨cols, rows⟩
  else .error .valueError

/-- Column at a positional index (pandas `iloc`-style access). -/
def DataFrame.colAt (df : DataFrame) (i : Nat) : List ℚ :=
  df.rows.map (fun r => r.getD i 0)

/-- Column selected by name, `df[name]`, for a name with a unique occurrence
(on a duplicated label pandas yields a two-column sub-frame instead of a
series; the two call sites that can face a duplicated label --
`extract_dHdl`'s first column at its frame construction and the
"Thermodynamic state" lookup in `sampledCols` -- guard that case with an
explicit ValueError, where the sub-frame's downstream numeric use raises). -/
def DataFrame.col? (df : DataFrame) (name : String) : Option (List ℚ) :=
  (df.columns.findIdx? (fun c => c == name)).map df.colAt

/-- The (name, values) pairs of all columns in order. -/
def DataFrame.colPairs (df : DataFrame) : List (String × List ℚ) :=
  (List.range df.columns.length).map (fun i => (df.columns.getD i "", df.colAt i))

/-- Keep only the first column for each repeated name (pandas
`df.iloc[:, ~df.columns.duplicated()]`). -/
def dedupPairs : List (String × List ℚ) → List String → List (String × List ℚ)
  | [], _ => []
  | (c, v) :: rest, seen =>
    if seen.contains c then dedupPairs rest seen
    else (c, v) :: dedupPairs rest (c :: seen)

/-- Rebuild row-major data from a column list (`n` = number of rows). -/
def colsToRows (n : Nat) (cs : List (List ℚ)) : List (List ℚ) :=
  (List.range n).map (fun r => cs.map (fun c => c.getD r 0))

/-- `df.iloc[:, ~df.columns.duplicated()]`: drop duplicate columns, keeping
first occurrences (used by `extract_u_nk` only). -/
def dedupCols (df : DataFrame) : DataFrame :=
  let ps := dedupPairs df.colPairs []
  ⟨ps.map (fun p => p.1), colsToRows df.rows.length (ps.map (fun p => p.2))⟩

/-- Positional indices selected by `df[names]`: for each requested label, all
columns bearing it, in order (pandas duplicate-label semantics). -/
def DataFrame.selectIdxs (df : DataFrame) (names : List String) : List Nat :=
  (names.map (fun nm =>
    (List.range df.columns.length).filter (fun i => df.columns.getD i "" == nm))).flatten

/-- The columns of `df[names]`, column-major. -/
def DataFrame.selectCols (df : DataFrame) (names : List String) : List (List ℚ) :=
  (df.selectIdxs names).map df.colAt

/-! ## `_extract_state` -/

/-- Result of `_extract_state`: either the fixed-state subtitle data
(`state`, lambda names, literal state vector), or the expanded-ensemble data
(lambda names in file order, state vectors in file order).  In the source the
two shapes are distinguished by `state is None`. -/
inductive StateInfo where
  | fixed : Int → List String → PyVal → StateInfo
  | expanded : List String → List (List ℚ) → StateInfo
deriving Repr, DecidableEq

/-- The lambda-schedule names carried by a `StateInfo`. -/
def StateInfo.lambdas : StateInfo → List String
  | .fixed _ ls _ => ls
  | .expanded ls _ => ls

/-- First line containing both "subtitle" and "state" (pass 1 of
`_extract_state`). -/
def findSubtitleState (xvg : File) : Option String :=
  xvg.find? (fun l => strContains l "subtitle" && strContains l "state")

/-- Parse the fixed-state subtitle line:
`state = int(line.split('state')[1].split(':')[0])`,
`lambdas = [word.strip(')(,') for word in line.split() if 'lambda' in word]`,
`statevec = eval(line.strip().split(' = ')[-1].strip('"'))`. -/
def parseSubtitleState (line : String) : Except PyErr (Int × List String × PyVal) := do
  let seg1 ← excE .indexError (pyGet? (strSplitOn line "state") 1)
  let seg2 ← excE .indexError (pyGet? (strSplitOn seg1 ":") 0)
  let st ← excE .valueError (pyInt? seg2)
  let lambdas := ((pySplit line).filter (fun w => strContains w "lambda")).map
    (fun w => pyStrip w [')', '(', ','])
  let svSeg ← excE .indexError (pyGet? (strSplitOn (strTrim line) " = ") (-1))
  let sv ← excE .valueError (evalLiteral? (pyStrip svSeg ['"']))
  pure (st, lambdas, sv)

/-- Pass 2, lambda-legend extraction for one line:
`[word.strip(')(,') for word in line.split() if 'lambda' in word][0]`. -/
def lamTokE (line : String) : Except PyErr String := do
  let toks := ((pySplit line).filter (fun w => strContains w "lambda")).map
    (fun w => pyStrip w [')', '(', ','])
  excE .indexError toks.head?

/-- Pass 2, state-vector extraction for one line:
`[float(i) for i in line.strip().split(' to ')[-1].strip('"()').split(',')]`. -/
def svEntryE (line : String) : Except PyErr (List ℚ) := do
  let seg ← excE .indexError (pyGet? (strSplitOn (strTrim line) " to ") (-1))
  mapME (fun p => excE .valueError (pyFloat? p))
    (strSplitOn (pyStrip seg ['"', '(', ')']) ",")

/-- One line of the expanded-ensemble scan: the two legend tests are applied
independently, each appending to its own accumulator. -/
def pass2Line (acc : List String × List (List ℚ)) (line : String) :
    Except PyErr (List String × List (List ℚ)) := do
  let ls ← if strContains line "legend" && strContains line "lambda" then do
      let tok ← lamTokE line
      pure (acc.1 ++ [tok])
    else pure acc.1
  let svs ← if strContains line "legend" && strContains line " to " then do
      let entry ← svEntryE line
      pure (acc.2 ++ [entry])
    else pure acc.2
  pure (ls, svs)

/-- `_extract_state(xvg)`: fixed-state subtitle scan, falling back to the
expanded-ensemble legend scan when no subtitle/state line exists. -/
def extract_state (xvg : File) : Except PyErr StateInfo := do
  match findSubtitleState xvg with
  | some line => do
    let r ← parseSubtitleState line
    pure (.fixed r.1 r.2.1 r.2.2)
  | none => do
    let r ← foldME pass2Line ([], []) xvg
    pure (.expanded r.1 r.2)

/-! ## `_extract_legend` -/

/-- `_extract_legend(xvg)`: for every legend line mentioning "lambda", map
token 4 of the line to `float`-parsed token 6 (quotes stripped). -/
def extract_legend (xvg : File) : Except PyErr (List (String × ℚ)) :=
  foldME (fun d line =>
    if strContains line "legend" && strContains line "lambda" then do
      let k ← excE .indexError (pyGet? (pySplit line) 4)
      let vtok ← excE .indexError (pyGet? (pySplit line) 6)
      let v ← excE .valueError (pyFloat? (pyStrip vtok ['"']))
      pure (dictInsert d k v)
    else pure d) [] xvg

/-! ## `_extract_dataframe` -/

/-- Accumulated state of the `_extract_dataframe` line scan: the axis name (if
already seen), legend column names in order, and raw (still unparsed) data
rows -- Python defers `float` conversion because `map(float, ...)` is lazy. -/
structure DFScan where
  xaxis : Option String
  names : List String
  rawRows : List (List String)
deriving Repr, DecidableEq

/-- Tail of one `_extract_dataframe` loop iteration (after the axis-label
step): append a legend name from an `@ s...` non-subtitle line; skip
remaining `#`/`@` comments; fail on a `&` multi-block marker; otherwise
whitespace-split the line as a raw data row. -/
def scanTail (line : String) (st : DFScan) : Except PyErr DFScan :=
  let st := if strStartsWith line "@ s" && !(strContains line "subtitle") then
      let name := strTrim (removeChar ((strSplitOn line "legend ").getLastD line) '"')
      { st with names := st.names ++ [name] }
    else st
  if strStartsWith line "#" || strStartsWith line "@" then .ok st
  else if strStartsWith line "&" then .error .notImplementedError
  else .ok { st with rawRows := st.rawRows ++ [pySplit line] }

/-- One iteration of the `_extract_dataframe` loop, in source order: strip
and skip blank lines; record the axis name from a "label"/"xaxis" line (the
value in the next-to-last quote-split segment); then `scanTail`. -/
def scanLine (st : DFScan) (line0 : String) : Except PyErr DFScan :=
  let line := strTrim line0
  if line.data.length = 0 then .ok st
  else
    (if strContains line "label" && strContains line "xaxis" then
        (excE .indexError (pyGet? (strSplitOn line "\"") (-2))).map
          (fun x => { st with xaxis := some x })
      else .ok st).bind (scanTail line)

/-- `_extract_dataframe(xvg)`: scan all lines, then materialise: an unbound
axis name is a `NameError`, raw tokens are `float`-parsed (`ValueError` on
failure), and the table provider receives `[xaxis] + names` as the header. -/
def extract_dataframe (xvg : File) : Except PyErr DataFrame := do
  let st ← foldME scanLine ⟨none, [], []⟩ xvg
  let xaxis ← excE .nameError st.xaxis
  let rows ← mapME (mapME (fun tok => excE .valueError (pyFloat? tok))) st.rawRows
  mkDataFrame (xaxis :: st.names) rows

/-! ## The assemblers -/

/-- `k_b = 8.3144621E-3` (kJ/(mol K)), exactly. -/
def k_b : ℚ := 83144621 / 10000000000

/-- `h_col_match = r"\xD\f{}H \xl\f{}"`: the Hamiltonian-difference marker. -/
def h_col_match : String := "\\xD\\f\x7b\x7dH \\xl\\f\x7b\x7d"

/-- `pv_col_match = 'pV'`. -/
def pv_col_match : String := "pV"

/-- `u_col_match = ['Total Energy', 'Potential Energy']`. -/
def u_col_match : List String := ["Total Energy", "Potential Energy"]

/-- A returned table: the multi-index (times and per-row lambda values for
each lambda name, from `set_index(['time'] + lambdas)`), the data column
keys, and the row-major data values. -/
structure XvgTable (κ : Type) where
  lambdaNames : List String
  times : List ℚ
  lamIdx : List (List ℚ)
  cols : List κ
  values : List (List ℚ)
deriving Repr, DecidableEq

/-- `x = None; if xs: x = df[xs[0]]` -- optional first-column selection used
for the pV and energy corrections of `extract_u_nk`. -/
def optColE (df : DataFrame) : Option String → Except PyErr (Option (List ℚ))
  | some p => do pure (some (← excE .keyError (df.col? p)))
  | none => pure none

/-- Body of the `for col in dH` loop of `extract_u_nk`:
`u_col = eval(col.split('to')[1])`, then
`u_k[u_col] = beta * dH[col].values`, `+= beta * pv.values` if a pV column
exists, `+= beta * u.values` if an energy column exists. -/
def ukEntry (beta : ℚ) (df : DataFrame) (pv u : Option (List ℚ)) (col : String) :
    Except PyErr (PyVal × List ℚ) := do
  let seg ← excE .indexError (pyGet? (strSplitOn col "to") 1)
  let u_col ← excE .valueError (evalLiteral? seg)
  let dHv ← excE .keyError (df.col? col)
  let v := dHv.map (fun x => beta * x)
  let v := match pv with
    | some pvv => List.zipWith (fun a b => a + b) v (pvv.map (fun x => beta * x))
    | none => v
  let v := match u with
    | some uv => List.zipWith (fun a b => a + b) v (uv.map (fun x => beta * x))
    | none => v
  pure (u_col, v)

/-- The per-row sampled-state lambda columns assigned by both assemblers:
fixed state -> `statevec[i]` per lambda (a scalar `statevec` broadcasts and a
tuple raises `IndexError` past its end, mirroring the `try/except TypeError`;
the `.str` branch is provably dead -- `extract_state_fixed_no_str` below --
since the subtitle literal parser yields only numbers and tuples);
expanded ensemble with a "Thermodynamic state" column -> per-row lookup
`statevec[int(t)][i]`, except that with a *duplicated* "Thermodynamic state"
label `df[df.columns[get_loc(...)]]` is a two-column sub-frame whose
iteration yields the label strings, so the first `int(t)` raises ValueError
-- unless the schedule is empty and the loop never runs; otherwise the
`_extract_legend` fallback. -/
def sampledCols (sinfo : StateInfo) (df : DataFrame) (xvg : File) (n : Nat) :
    Except PyErr (List (String × List ℚ)) :=
  match sinfo with
  | .fixed _ lambdas sv =>
    mapIdxE (fun i l =>
      match sv with
      | .tup vs => do
        let v ← excE .indexError (pyGet? vs (Int.ofNat i))
        pure (l, List.replicate n v)
      | .num q => pure (l, List.replicate n q)
      | .str _ => .error .typeError) 0 lambdas
  | .expanded lambdas svs =>
    if df.columns.contains "Thermodynamic state" then
      if (df.columns.filter (fun c => c == "Thermodynamic state")).length = 1 then do
        let ts ← excE .keyError (df.col? "Thermodynamic state")
        mapIdxE (fun i l => do
          let v ← mapME (fun t => do
            let row ← excE .indexError (pyGet? svs (pyTrunc t))
            excE .indexError (pyGet? row (Int.ofNat i))) ts
          pure (l, v)) 0 lambdas
      else
        match lambdas with
        | [] => pure []
        | _ :: _ => .error .valueError
    else do
      let legend ← extract_legend xvg
      pure (legend.map (fun kv => (kv.1, List.replicate n kv.2)))

/-- Python frame-column assignment `frame[k] = v`: every column already
bearing the key is overwritten in place, otherwise a new column is appended
at the end. -/
def setItemK [DecidableEq κ] (d : List (κ × List ℚ)) (k : κ) (v : List ℚ) :
    List (κ × List ℚ) :=
  if d.any (fun p => decide (p.1 = k)) then
    d.map (fun p => if p.1 = k then (k, v) else p)
  else d ++ [(k, v)]

/-- `set_index` pulling one key out of the frame: the unique column bearing
it (a missing key is a KeyError, a still-duplicated one feeds a two-column
sub-frame to the index constructor, a ValueError). -/
def pullKey [DecidableEq κ] (frame : List (κ × List ℚ)) (k : κ) :
    Except PyErr (List ℚ) :=
  match frame.filter (fun p => decide (p.1 = k)) with
  | [] => .error .keyError
  | [p] => .ok p.2
  | _ :: _ :: _ => .error .valueError

/-- The index-building tail shared by both assemblers.  Each sampled-state
assignment `frame[l] = column` lands in the same column namespace as the
data columns (`mkKey` embeds the lambda-name strings into the frame's key
type: the identity for `extract_dHdl`'s string-keyed frame, `PyVal.str` for
`extract_u_nk`'s literal-keyed frame, mirroring Python's mixed-type column
labels, where a string never equals a tuple or float).  Then `reset_index()`
inserts the index as a column named "time" -- refused with a ValueError when
that key already exists -- and `set_index(['time'] + lambdas)` pulls, for
each lambda name in order (repeats allowed), the column bearing it out of
the frame as a row-index level, leaving every remaining column as a data
column of the result. -/
def attachIndex [DecidableEq κ] (mkKey : String → κ) (lambdas : List String)
    (times : List ℚ) (n : Nat) (lamCols : List (String × List ℚ))
    (frame0 : List (κ × List ℚ)) : Except PyErr (XvgTable κ) :=
  let frame := lamCols.foldl (fun d kv => setItemK d (mkKey kv.1) kv.2) frame0
  if frame.any (fun p => decide (p.1 = mkKey "time")) then .error .valueError
  else
    (mapME (pullKey frame) (lambdas.map mkKey)) >>= (fun ordered =>
      let rest := frame.filter (fun p => decide (p.1 ∉ lambdas.map mkKey))
      .ok ⟨lambdas, times, colsToRows n ordered, rest.map Prod.fst,
        colsToRows n (rest.map Prod.snd)⟩)

/-- `extract_u_nk(xvg, T)`.  The `u_k` frame is the dict of per-target
reduced-potential columns, reindexed by the (possibly repeating) parsed
target keys `cols`; the sampled-state columns are then assigned into that
same frame under `PyVal.str` keys and pulled out again by `set_index`. -/
def extract_u_nk (xvg : File) (T : ℚ) : Except PyErr (XvgTable PyVal) := do
  let beta := 1 / (k_b * T)
  let sinfo ← extract_state xvg
  let df0 ← extract_dataframe xvg
  let df := dedupCols df0
  let c0 ← excE .indexError df.columns.head?
  let times ← excE .keyError (df.col? c0)
  let DHcols := df.columns.filter (fun c => strContains c h_col_match)
  let pv_cols := df.columns.filter (fun c => strContains c pv_col_match)
  let pv ← optColE df pv_cols.head?
  let u_cols := df.columns.filter (fun c => u_col_match.any (fun m => strContains c m))
  let u ← optColE df u_cols.head?
  let entries ← mapME (ukEntry beta df pv u) DHcols
  let ukDict := entries.foldl (fun d kv => dictInsert d kv.1 kv.2) []
  let cols := entries.map (fun kv => kv.1)
  let n := df.rows.length
  let frame0 := cols.map (fun k => (k, (dictGet? ukDict k).getD []))
  let lamCols ← sampledCols sinfo df xvg n
  attachIndex PyVal.str sinfo.lambdas times n lamCols frame0

/-- `extract_dHdl(xvg, T)`.  Note: unlike `extract_u_nk` there is no
duplicate-column drop here.  The rename keeps `l.split('-')[0]`, and the
frame construction `pd.DataFrame(dHdl.values, columns=cols,
index=pd.Float64Index(times.values, name='time'))` raises a ValueError both
when the first column's label is duplicated (`times` is then a two-column
sub-frame, so `times.values` is 2-D) and when the selected gradient columns
do not match the renamed header's width.  The sampled-state columns are then
assigned into the same string-keyed frame and pulled out by `set_index`. -/
def extract_dHdl (xvg : File) (T : ℚ) : Except PyErr (XvgTable String) := do
  let beta := 1 / (k_b * T)
  let sinfo ← extract_state xvg
  let df ← extract_dataframe xvg
  let c0 ← excE .indexError df.columns.head?
  let times ← excE .keyError (df.col? c0)
  let lambdas := sinfo.lambdas
  let dHcols := (lambdas.map (fun l => df.columns.filter (fun c => strContains c l))).flatten
  let sel := df.selectCols dHcols
  let scaled := sel.map (fun c => c.map (fun x => beta * x))
  let cols := lambdas.map (fun l => (strSplitOn l "-").headD l)
  if (df.columns.filter (fun c => c == c0)).length = 1 ∧ scaled.length = cols.length then do
    let n := df.rows.length
    let lamCols ← sampledCols sinfo df xvg n
    attachIndex id lambdas times n lamCols (cols.zip scaled)
  else throw .valueError

/-- Modelled from the spec: the C5 claim's reading of `extract_dHdl`, with
"duplicate raw columns ... collapsed to the first occurrence before any
further extraction" (i.e. with the same duplicate-drop `extract_u_nk` does).
Used only to compare against the actual `extract_dHdl`. -/
def extract_dHdl_dedupFirst (xvg : File) (T : ℚ) : Except PyErr (XvgTable String) := do
  let beta := 1 / (k_b * T)
  let sinfo ← extract_state xvg
  let df0 ← extract_dataframe xvg
  let df := dedupCols df0
  let c0 ← excE .indexError df.columns.head?
  let times ← excE .keyError (df.col? c0)
  let lambdas := sinfo.lambdas
  let dHcols := (lambdas.map (fun l => df.columns.filter (fun c => strContains c l))).flatten
  let sel := df.selectCols dHcols
  let scaled := sel.map (fun c => c.map (fun x => beta * x))
  let cols := lambdas.map (fun l => (strSplitOn l "-").headD l)
  if (df.columns.filter (fun c => c == c0)).length = 1 ∧ scaled.length = cols.length then do
    let n := df.rows.length
    let lamCols ← sampledCols sinfo df xvg n
    attachIndex id lambdas times n lamCols (cols.zip scaled)
  else throw .valueError

/-- Modelled from the spec: the C7 claim's lambda-schedule extraction, in
which a contributing line must contain "legend" and "lambda" "and not itself
[be] a subtitle line".  Used only to compare against `extract_state`. -/
def claimPass2Lambdas (xvg : File) : List String :=
  (xvg.filter (fun l => strContains l "legend" && strContains l "lambda"
      && !(strContains l "subtitle"))).map
    (fun l => (((pySplit l).filter (fun w => strContains w "lambda")).map
      (fun w => pyStrip w [')', '(', ','])).headD "")

/-! ## Concrete fixture files -/

deriving instance DecidableEq for Except

/-- A fixed-state file with a two-component lambda schedule, an energy
column, a pV column and two Hamiltonian-difference columns. -/
def fixedFile : File :=
  [ "@ xaxis label \"Time (ps)\""
  , "@ subtitle \"T = 300 (K) state 1: (coul-lambda, vdw-lambda) = (0.25, 0.5)\""
  , "@ s0 legend \"Potential Energy (kJ/mol)\""
  , "@ s1 legend \"dH/d\\xl\\f\x7b\x7d coul-lambda = 0.25\""
  , "@ s2 legend \"dH/d\\xl\\f\x7b\x7d vdw-lambda = 0.5\""
  , "@ s3 legend \"\\xD\\f\x7b\x7dH \\xl\\f\x7b\x7d to (0.0, 0.0)\""
  , "@ s4 legend \"\\xD\\f\x7b\x7dH \\xl\\f\x7b\x7d to (1.0, 1.0)\""
  , "@ s5 legend \"pV (kJ/mol)\""
  , "0.0 2.0 4.0 8.0 10.0 20.0 1.0"
  , "2.0 3.0 5.0 9.0 30.0 40.0 1.5" ]

/-- A fixed-state file whose declared state vector is a scalar. -/
def scalarFile : File :=
  [ "@ xaxis label \"Time (ps)\""
  , "@ subtitle \"quux state 0: (fep-lambda) = 0.75\""
  , "@ s0 legend \"dH/d\\xl\\f\x7b\x7d fep-lambda = 0.75\""
  , "0.0 7.0" ]

/-- An expanded-ensemble file with a "Thermodynamic state" column, two known
states and two frames sampling states 0 and 1. -/
def expandedFile : File :=
  [ "@ xaxis label \"Time (ps)\""
  , "@ s0 legend \"Thermodynamic state\""
  , "@ s1 legend \"dH/d\\xl\\f\x7b\x7d fep-lambda = 0\""
  , "@ s2 legend \"\\xD\\f\x7b\x7dH \\xl\\f\x7b\x7d to (0.0)\""
  , "@ s3 legend \"\\xD\\f\x7b\x7dH \\xl\\f\x7b\x7d to (1.0)\""
  , "0.0 0 1.5 10.0 20.0"
  , "1.0 1 2.5 30.0 40.0" ]

/-- A fixed-state file with two differently named Hamiltonian-difference
columns whose names parse to the same target lambda tuple. -/
def dupTargetFile : File :=
  [ "@ xaxis label \"Time (ps)\""
  , "@ subtitle \"quux state 0: (coul-lambda) = (0.5,)\""
  , "@ s0 legend \"A \\xD\\f\x7b\x7dH \\xl\\f\x7b\x7d to (0.25,)\""
  , "@ s1 legend \"B \\xD\\f\x7b\x7dH \\xl\\f\x7b\x7d to (0.25,)\""
  , "0.0 10.0 20.0" ]

/-- A fixed-state file whose gradient column name appears twice. -/
def dupColsFile : File :=
  [ "@ xaxis label \"Time (ps)\""
  , "@ subtitle \"quux state 0: (coul-lambda) = (0.5,)\""
  , "@ s0 legend \"dH/dl coul-lambda A\""
  , "@ s1 legend \"dH/dl coul-lambda A\""
  , "0.0 1.0 2.0" ]

/-- A file whose data section holds a multi-block marker line. -/
def multiBlockFile : File := ["@ xaxis label \"Time (ps)\"", "0.0 1.0", "& next block"]

/-- A file with data rows but no axis-label line. -/
def noAxisFile : File := ["@ s0 legend \"foo\"", "0.0 1.0"]

/-- A subtitle line (without "state") that also matches the legend/lambda
tests of the expanded-ensemble pass. -/
def subtitleLegendFile : File := ["@ subtitle legend fep-lambda"]

/-- A single legend line containing "lambda" and " to " at once. -/
def comboLegendLine : String := "@ s0 legend \"dH fep-lambda foo to (0.5, 1.0)\""

/-- `_extract_state` result for `fixedFile`. -/
def fixedSinfo : StateInfo :=
  .fixed 1 ["coul-lambda", "vdw-lambda"] (.tup [1/4, 1/2])

/-- `_extract_dataframe` result for `fixedFile`. -/
def fixedDF : DataFrame :=
  ⟨[ "Time (ps)", "Potential Energy (kJ/mol)", "dH/d\\xl\\f\x7b\x7d coul-lambda = 0.25"
   , "dH/d\\xl\\f\x7b\x7d vdw-lambda = 0.5", "\\xD\\f\x7b\x7dH \\xl\\f\x7b\x7d to (0.0, 0.0)"
   , "\\xD\\f\x7b\x7dH \\xl\\f\x7b\x7d to (1.0, 1.0)", "pV (kJ/mol)" ],
   [[0, 2, 4, 8, 10, 20, 1], [2, 3, 5, 9, 30, 40, 3/2]]⟩

/-- `extract_u_nk fixedFile 300`. -/
def fixedUnkTbl : XvgTable PyVal :=
  ⟨["coul-lambda", "vdw-lambda"], [0, 2], [[1/4, 1/2], [1/4, 1/2]],
   [.tup [0, 0], .tup [1, 1]],
   [[1300000000/249433863, 2300000000/249433863],
    [1150000000/83144621, 4450000000/249433863]]⟩

/-- `extract_dHdl fixedFile 300`. -/
def fixedDHdlTbl : XvgTable String :=
  ⟨["coul-lambda", "vdw-lambda"], [0, 2], [[1/4, 1/2], [1/4, 1/2]],
   ["coul", "vdw"],
   [[400000000/249433863, 800000000/249433863],
    [500000000/249433863, 300000000/83144621]]⟩

/-- `_extract_state` result for `scalarFile`. -/
def scalarSinfo : StateInfo := .fixed 0 ["fep-lambda"] (.num (3/4))

/-- `_extract_dataframe` result for `scalarFile`. -/
def scalarDF : DataFrame :=
  ⟨["Time (ps)", "dH/d\\xl\\f\x7b\x7d fep-lambda = 0.75"], [[0, 7]]⟩

/-- `extract_u_nk scalarFile 300`. -/
def scalarUnkTbl : XvgTable PyVal := ⟨["fep-lambda"], [0], [[3/4]], [], [[]]⟩

/-- `extract_dHdl scalarFile 300`. -/
def scalarDHdlTbl : XvgTable String :=
  ⟨["fep-lambda"], [0], [[3/4]], ["fep"], [[100000000/35633409]]⟩

/-- `_extract_state` result for `expandedFile`. -/
def expandedSinfo : StateInfo := .expanded ["fep-lambda"] [[0], [1]]

/-- `_extract_dataframe` result for `expandedFile`. -/
def expandedDF : DataFrame :=
  ⟨[ "Time (ps)", "Thermodynamic state", "dH/d\\xl\\f\x7b\x7d fep-lambda = 0"
   , "\\xD\\f\x7b\x7dH \\xl\\f\x7b\x7d to (0.0)", "\\xD\\f\x7b\x7dH \\xl\\f\x7b\x7d to (1.0)" ],
   [[0, 0, 3/2, 10, 20], [1, 1, 5/2, 30, 40]]⟩

/-- `extract_u_nk expandedFile 300`. -/
def expandedUnkTbl : XvgTable PyVal :=
  ⟨["fep-lambda"], [0, 1], [[0], [1]], [.num 0, .num 1],
   [[1000000000/249433863, 2000000000/249433863],
    [1000000000/83144621, 4000000000/249433863]]⟩

/-- `extract_dHdl expandedFile 300`. -/
def expandedDHdlTbl : XvgTable String :=
  ⟨["fep-lambda"], [0, 1], [[0], [1]], ["fep"],
   [[50000000/83144621], [250000000/249433863]]⟩

/-- Component `j` of a declared fixed state: a tuple indexes into its
entries, a scalar broadcasts to every component (the `.str` case is dead for
parsed literals -- `extract_state_fixed_no_str` -- and defaults to 0). -/
def fixedComponent (sv : PyVal) (j : Nat) : ℚ :=
  match sv with
  | .tup vs => vs.getD j 0
  | .num q => q
  | .str _ => 0

/-- Value at row `r` of an optional correction column (0 when absent). -/
def optColTerm (df : DataFrame) (o : Option String) (r : Nat) : ℚ :=
  match o with
  | some p => ((df.col? p).getD []).getD r 0
  | none => 0

/-- The `beta`-scaled correction term contributed by an optional column. -/
def optScaled (beta : ℚ) (o : Option (List ℚ)) (r : Nat) : ℚ :=
  match o with
  | some c => beta * c.getD r 0
  | none => 0

/-- `_extract_dataframe` result for `dupTargetFile`. -/
def dupTargetDF : DataFrame :=
  ⟨[ "Time (ps)", "A \\xD\\f\x7b\x7dH \\xl\\f\x7b\x7d to (0.25,)"
   , "B \\xD\\f\x7b\x7dH \\xl\\f\x7b\x7d to (0.25,)" ],
   [[0, 10, 20]]⟩

/-- `extract_u_nk dupTargetFile 300`: both output columns carry the second
marker column's values. -/
def dupTargetTbl : XvgTable PyVal :=
  ⟨["coul-lambda"], [0], [[1/2]], [.tup [1/4], .tup [1/4]],
   [[2000000000/249433863, 2000000000/249433863]]⟩

/-- `_extract_dataframe` result for `dupColsFile`. -/
def dupColsDF : DataFrame :=
  ⟨["Time (ps)", "dH/dl coul-lambda A", "dH/dl coul-lambda A"], [[0, 1, 2]]⟩

/-- An expanded-ensemble file whose two lambda legend lines carry the same
token "fep-lambda", with state vector (0.25, 0.75) and one frame sampling
state 0. -/
def dupLamFile : File :=
  [ "@ xaxis label \"Time (ps)\""
  , "@ s0 legend \"Thermodynamic state\""
  , "@ s1 legend \"dH/d\\xl\\f\x7b\x7d fep-lambda = 0\""
  , "@ s2 legend \"dH/d\\xl\\f\x7b\x7d fep-lambda = 1\""
  , "@ s3 legend \"\\xD\\f\x7b\x7dH \\xl\\f\x7b\x7d to (0.25, 0.75)\""
  , "0.0 0 1.5 2.5 10.0" ]

/-- `_extract_dataframe` result for `dupLamFile`. -/
def dupLamDF : DataFrame :=
  ⟨[ "Time (ps)", "Thermodynamic state", "dH/d\\xl\\f\x7b\x7d fep-lambda = 0"
   , "dH/d\\xl\\f\x7b\x7d fep-lambda = 1", "\\xD\\f\x7b\x7dH \\xl\\f\x7b\x7d to (0.25, 0.75)" ],
   [[0, 0, 3/2, 5/2, 10]]⟩

/-- `extract_u_nk dupLamFile 300`: the second assignment to the duplicated
name overwrites the first, so both row-index components show
`statevec[0][1] = 0.75`, not `statevec[0][0] = 0.25` at component 0. -/
def dupLamTbl : XvgTable PyVal :=
  ⟨["fep-lambda", "fep-lambda"], [0], [[3/4, 3/4]], [.tup [1/4, 3/4]],
   [[1000000000/249433863]]⟩

/-- A multi-block file whose axis-label line carries no quoted value, so the
label line raises IndexError before the "&" line is ever reached. -/
def quoteFreeAxisFile : File := ["@ xaxis label Time", "& x"]

/-- An expanded-ensemble file in the legend fallback (no "Thermodynamic
state" column) whose legend dict gains a key "alt" outside the lambda
schedule `["lambda1", "lambda1"]`. -/
def rexLeftoverFile : File :=
  [ "@ xaxis label \"Time (ps)\""
  , "@ lambda1 x legend alt 3 \"0.7\""
  , "@ s1 x legend lambda1 3 \"0.5\""
  , "0.0 1.0" ]

/-- `extract_u_nk rexLeftoverFile 300`: the assigned legend column "alt" is
not pulled into the index by `set_index` and survives as an extra data
column next to the (here zero) Hamiltonian-difference columns. -/
def rexLeftoverTbl : XvgTable PyVal :=
  ⟨["lambda1", "lambda1"], [0], [[1/2, 1/2]], [.str "alt"], [[7/10]]⟩

/-! ## General inversion lemmas -/

theorem ok_bind (a : α) (f : α → Except PyErr β) : (Except.ok a >>= f) = f a := rfl

theorem pure_ok (a : α) : (pure a : Except PyErr α) = .ok a := rfl

theorem bindE_ok {e : Except PyErr α} {f : α → Except PyErr β} {b : β}
    (h : (e >>= f) = .ok b) : ∃ a, e = .ok a ∧ f a = .ok b := by
  cases e with
  | error err => simp [Bind.bind, Except.bind] at h
  | ok a => exact ⟨a, rfl, h⟩

theorem excE_ok {e : PyErr} {o : Option α} {a : α} (h : excE e o = .ok a) : o = some a := by
  cases o with
  | none => simp [excE] at h
  | some x => cases h; rfl

theorem mapME_ok_length {f : α → Except PyErr β} :
    ∀ {xs : List α} {ys : List β}, mapME f xs = .ok ys → ys.length = xs.length
  | [], ys, h => by
    simp only [mapME] at h
    cases h
    rfl
  | x :: xs, ys, h => by
    simp only [mapME] at h
    obtain ⟨y, _, h⟩ := bindE_ok h
    obtain ⟨ys', hys, h⟩ := bindE_ok h
    cases h
    simpa using mapME_ok_length hys

theorem mapME_ok_get? {f : α → Except PyErr β} :
    ∀ {xs : List α} {ys : List β}, mapME f xs = .ok ys →
      ∀ i x, xs.get? i = some x → ∃ y, ys.get? i = some y ∧ f x = .ok y
  | [], _, _, i, x, hx => by simp at hx
  | x' :: xs, ys, h, i, x, hx => by
    simp only [mapME] at h
    obtain ⟨y, hy, h⟩ := bindE_ok h
    obtain ⟨ys', hys, h⟩ := bindE_ok h
    cases h
    match i, hx with
    | 0, hx => exact ⟨y, rfl, by cases hx; exact hy⟩
    | i + 1, hx => exact mapME_ok_get? hys i x hx

theorem mapIdxE_ok_length {f : Nat → α → Except PyErr β} :
    ∀ {k : Nat} {xs : List α} {ys : List β}, mapIdxE f k xs = .ok ys → ys.length = xs.length
  | _, [], ys, h => by
    simp only [mapIdxE] at h
    cases h
    rfl
  | k, x :: xs, ys, h => by
    simp only [mapIdxE] at h
    obtain ⟨y, _, h⟩ := bindE_ok h
    obtain ⟨ys', hys, h⟩ := bindE_ok h
    cases h
    simpa using mapIdxE_ok_length hys

theorem mapIdxE_ok_get? {f : Nat → α → Except PyErr β} :
    ∀ {k : Nat} {xs : List α} {ys : List β}, mapIdxE f k xs = .ok ys →
      ∀ i x, xs.get? i = some x → ∃ y, ys.get? i = some y ∧ f (k + i) x = .ok y
  | _, [], _, _, i, x, hx => by simp at hx
  | k, x' :: xs, ys, h, i, x, hx => by
    simp only [mapIdxE] at h
    obtain ⟨y, hy, h⟩ := bindE_ok h
    obtain ⟨ys', hys, h⟩ := bindE_ok h
    cases h
    match i, hx with
    | 0, hx =>
      exact ⟨y, rfl, by cases hx; simpa using hy⟩
    | i + 1, hx =>
      obtain ⟨y', hy', hf⟩ := mapIdxE_ok_get? hys i x hx
      refine ⟨y', by simpa using hy', ?_⟩
      have harith : k + 1 + i = k + (i + 1) := by omega
      rwa [harith] at hf

theorem colsToRows_length (n : Nat) (cs : List (List ℚ)) : (colsToRows n cs).length = n := by
  simp [colsToRows]

theorem colsToRows_get? (n : Nat) (cs : List (List ℚ)) (r : Nat) (h : r < n) :
    (colsToRows n cs).get? r = some (cs.map (fun c => c.getD r 0)) := by
  unfold colsToRows
  rw [List.get?_eq_getElem?, List.getElem?_map, List.getElem?_range h]
  rfl

theorem col?_length {df : DataFrame} {name : String} {c : List ℚ}
    (h : df.col? name = some c) : c.length = df.rows.length := by
  unfold DataFrame.col? at h
  cases hf : df.columns.findIdx? (fun x => x == name) with
  | none =>
    rw [hf] at h
    exact absurd h (by simp)
  | some j =>
    rw [hf] at h
    have hc : df.colAt j = c := by
      have := h
      simpa using this
    rw [← hc]
    simp [DataFrame.colAt]

theorem zipWith_get?_some {f : ℚ → ℚ → ℚ} :
    ∀ {a b : List ℚ} {r : Nat} {x y : ℚ},
      a.get? r = some x → b.get? r = some y →
      (List.zipWith f a b).get? r = some (f x y)
  | [], _, r, x, y, hx, _ => by simp at hx
  | _ :: _, [], r, x, y, _, hy => by simp at hy
  | a :: as, b :: bs, 0, x, y, hx, hy => by
    cases hx; cases hy; rfl
  | a :: as, b :: bs, r + 1, x, y, hx, hy => by
    simpa using zipWith_get?_some (f := f) (a := as) (b := bs) hx hy

theorem replicate_get? {a : α} : ∀ {n r : Nat}, r < n → (List.replicate n a).get? r = some a := by
  intro n
  induction n with
  | zero => intro r h; omega
  | succ n ih =>
    intro r h
    cases r with
    | zero => rfl
    | succ r => exact ih (by omega)

theorem getD_of_get? {l : List α} {i : Nat} {a : α} (d : α) (h : l.get? i = some a) :
    l.getD i d = a := by
  simp [List.getD_eq_getElem?_getD, ← List.get?_eq_getElem?, h]

/-! ## Dict lemmas -/

theorem dictInsert_fresh [DecidableEq κ] :
    ∀ (d : List (κ × ν)) (k : κ) (v : ν), (∀ p ∈ d, p.1 ≠ k) →
      dictInsert d k v = d ++ [(k, v)]
  | [], k, v, _ => rfl
  | (k', v') :: rest, k, v, h => by
    have hne : k' ≠ k := h (k', v') (by simp)
    simp only [dictInsert, if_neg hne, List.cons_append, List.cons.injEq, true_and]
    exact dictInsert_fresh rest k v (fun p hp => h p (by simp [hp]))

theorem foldl_dictInsert_eq_append [DecidableEq κ] :
    ∀ (entries d0 : List (κ × ν)),
      (entries.map Prod.fst).Nodup →
      (∀ p ∈ entries, ∀ q ∈ d0, q.1 ≠ p.1) →
      entries.foldl (fun d kv => dictInsert d kv.1 kv.2) d0 = d0 ++ entries
  | [], d0, _, _ => by simp
  | (k, v) :: rest, d0, hnd, hfresh => by
    have hnd' : (k :: rest.map Prod.fst).Nodup := by simpa using hnd
    have hk : k ∉ rest.map Prod.fst := (List.nodup_cons.mp hnd').1
    have hrest : (rest.map Prod.fst).Nodup := (List.nodup_cons.mp hnd').2
    simp only [List.foldl_cons]
    rw [dictInsert_fresh d0 k v (fun q hq => hfresh (k, v) (List.mem_cons_self _ _) q hq)]
    have hfresh2 : ∀ p ∈ rest, ∀ q ∈ d0 ++ [(k, v)], q.1 ≠ p.1 := by
      intro p hp q hq
      rcases List.mem_append.mp hq with hq | hq
      · exact hfresh p (List.mem_cons_of_mem _ hp) q hq
      · have hq' : q = (k, v) := by simpa using hq
        subst hq'
        intro heq
        have heq' : k = p.1 := heq
        exact hk (by rw [heq']; exact List.mem_map.mpr ⟨p, hp, rfl⟩)
    rw [foldl_dictInsert_eq_append rest (d0 ++ [(k, v)]) hrest hfresh2]
    simp

theorem dictGet?_of_get? [DecidableEq κ] {d : List (κ × ν)} :
    ∀ {i : Nat} {k : κ} {v : ν},
      (d.map Prod.fst).Nodup → d.get? i = some (k, v) → dictGet? d k = some v := by
  induction d with
  | nil => intro i k v _ hi; simp at hi
  | cons p rest ih =>
    intro i k v hnd hi
    obtain ⟨k', v'⟩ := p
    have hnd' : (k' :: rest.map Prod.fst).Nodup := by simpa using hnd
    cases i with
    | zero =>
      cases hi
      simp [dictGet?]
    | succ i =>
      have hi' : rest.get? i = some (k, v) := by simpa using hi
      have hne : k' ≠ k := by
        intro he
        subst he
        exact (List.nodup_cons.mp hnd').1
          (List.mem_map.mpr ⟨(k', v), List.get?_mem hi', rfl⟩)
      simp only [dictGet?, if_neg hne]
      exact ih (List.nodup_cons.mp hnd').2 hi'

/-! ## Frame-assignment lemmas -/

theorem map_id_of_eq {f : α → α} : ∀ {l : List α}, (∀ x ∈ l, f x = x) → l.map f = l
  | [], _ => rfl
  | x :: xs, h => by
    simp only [List.map_cons]
    rw [h x (by simp), map_id_of_eq (fun y hy => h y (by simp [hy]))]

theorem setItemK_mem [DecidableEq κ] {d : List (κ × List ℚ)} {k : κ} {v : List ℚ}
    {q : κ × List ℚ} (hq : q ∈ setItemK d k v) : q ∈ d ∨ q = (k, v) := by
  unfold setItemK at hq
  split at hq
  · obtain ⟨p, hp, hpq⟩ := List.mem_map.mp hq
    by_cases hpk : p.1 = k
    · rw [if_pos hpk] at hpq
      exact Or.inr hpq.symm
    · rw [if_neg hpk] at hpq
      exact Or.inl (hpq ▸ hp)
  · rcases List.mem_append.mp hq with h | h
    · exact Or.inl h
    · exact Or.inr (by simpa using h)

theorem setItemK_mem_key [DecidableEq κ] {d : List (κ × List ℚ)} {k : κ} {v : List ℚ}
    {q : κ × List ℚ} (hq : q ∈ setItemK d k v) (hk : q.1 = k) : q = (k, v) := by
  unfold setItemK at hq
  split at hq
  case isTrue =>
    obtain ⟨p, hp, hpq⟩ := List.mem_map.mp hq
    by_cases hpk : p.1 = k
    · rw [if_pos hpk] at hpq
      exact hpq.symm
    · rw [if_neg hpk] at hpq
      rw [← hpq] at hk
      exact absurd hk hpk
  case isFalse hany =>
    rcases List.mem_append.mp hq with h | h
    · exact absurd (List.any_eq_true.mpr ⟨q, h, decide_eq_true hk⟩) hany
    · simpa using h

theorem setItemK_mem_ne [DecidableEq κ] {d : List (κ × List ℚ)} {k : κ} {v : List ℚ}
    {q : κ × List ℚ} (hq : q ∈ setItemK d k v) (hne : q.1 ≠ k) : q ∈ d := by
  rcases setItemK_mem hq with h | h
  · exact h
  · rw [h] at hne
    simp at hne

theorem setItemK_preserve [DecidableEq κ] {d : List (κ × List ℚ)} {k : κ} {v : List ℚ}
    {q : κ × List ℚ} (hq : q ∈ d) (hne : q.1 ≠ k) : q ∈ setItemK d k v := by
  unfold setItemK
  split
  · exact List.mem_map.mpr ⟨q, hq, by rw [if_neg hne]⟩
  · exact List.mem_append.mpr (Or.inl hq)

theorem setItemK_self [DecidableEq κ] (d : List (κ × List ℚ)) (k : κ) (v : List ℚ) :
    (k, v) ∈ setItemK d k v := by
  unfold setItemK
  split
  case isTrue hany =>
    obtain ⟨p, hp, hpk⟩ := List.any_eq_true.mp hany
    exact List.mem_map.mpr ⟨p, hp, by rw [if_pos (of_decide_eq_true hpk)]⟩
  case isFalse => exact List.mem_append.mpr (Or.inr (by simp))

theorem fold_setItemK_fresh [DecidableEq κ] {mkKey : String → κ} {k : κ} :
    ∀ (lamCols : List (String × List ℚ)) (d : List (κ × List ℚ)),
      (∀ kv ∈ lamCols, mkKey kv.1 ≠ k) →
      ∀ q : κ × List ℚ, q.1 = k →
        (q ∈ lamCols.foldl (fun d kv => setItemK d (mkKey kv.1) kv.2) d ↔ q ∈ d)
  | [], _, _, _, _ => Iff.rfl
  | kv0 :: rest, d, hfr, q, hk => by
    simp only [List.foldl_cons]
    have hne : mkKey kv0.1 ≠ k := hfr kv0 (by simp)
    have hqne : q.1 ≠ mkKey kv0.1 := fun he => hne (he.symm.trans hk)
    rw [fold_setItemK_fresh rest (setItemK d (mkKey kv0.1) kv0.2)
      (fun kv hkv => hfr kv (List.mem_cons_of_mem _ hkv)) q hk]
    exact ⟨fun hq => setItemK_mem_ne hq hqne, fun hq => setItemK_preserve hq hqne⟩

theorem fold_setItemK_nodup_get [DecidableEq κ] (mkKey : String → κ)
    (hinj : ∀ a b, mkKey a = mkKey b → a = b) :
    ∀ (lamCols : List (String × List ℚ)) (frame0 : List (κ × List ℚ))
      (j : Nat) (l : String) (v : List ℚ),
      (lamCols.map Prod.fst).Nodup →
      lamCols.get? j = some (l, v) →
      (∀ q ∈ lamCols.foldl (fun d kv => setItemK d (mkKey kv.1) kv.2) frame0,
        q.1 = mkKey l → q = (mkKey l, v)) ∧
      (mkKey l, v) ∈ lamCols.foldl (fun d kv => setItemK d (mkKey kv.1) kv.2) frame0
  | [], _, j, l, v, _, hj => by simp at hj
  | (name, w) :: rest, frame0, j, l, v, hnd, hj => by
    simp only [List.map_cons, List.nodup_cons] at hnd
    obtain ⟨hname, hndr⟩ := hnd
    simp only [List.foldl_cons]
    cases j with
    | zero =>
      have hj' : (name, w) = (l, v) := by simpa using hj
      cases hj'
      have hfr : ∀ kv ∈ rest, mkKey kv.1 ≠ mkKey name := by
        intro kv hkv he
        exact hname (by rw [← hinj _ _ he]; exact List.mem_map.mpr ⟨kv, hkv, rfl⟩)
      have hiff := fold_setItemK_fresh rest (setItemK frame0 (mkKey name) w) hfr
      refine ⟨?_, ?_⟩
      · intro q hq hqk
        exact setItemK_mem_key ((hiff q hqk).mp hq) hqk
      · exact (hiff (mkKey name, w) rfl).mpr (setItemK_self frame0 (mkKey name) w)
    | succ j =>
      exact fold_setItemK_nodup_get mkKey hinj rest (setItemK frame0 (mkKey name) w)
        j l v hndr (by simpa using hj)

theorem setItemK_append_fresh [DecidableEq κ] {d1 d2 : List (κ × List ℚ)} {k : κ}
    {v : List ℚ} (h : ∀ p ∈ d1, p.1 ≠ k) :
    setItemK (d1 ++ d2) k v = d1 ++ setItemK d2 k v := by
  unfold setItemK
  have h1 : d1.any (fun p => decide (p.1 = k)) = false := by
    rw [List.any_eq_false]
    intro p hp
    simp [h p hp]
  rw [List.any_append, h1, Bool.false_or]
  split
  · rw [List.map_append, map_id_of_eq (fun p hp => by rw [if_neg (h p hp)])]
  · rw [List.append_assoc]

theorem fold_setItemK_append_fresh [DecidableEq κ] {mkKey : String → κ} :
    ∀ (lamCols : List (String × List ℚ)) (d1 d2 : List (κ × List ℚ)),
      (∀ kv ∈ lamCols, ∀ p ∈ d1, p.1 ≠ mkKey kv.1) →
      lamCols.foldl (fun d kv => setItemK d (mkKey kv.1) kv.2) (d1 ++ d2)
        = d1 ++ lamCols.foldl (fun d kv => setItemK d (mkKey kv.1) kv.2) d2
  | [], d1, d2, _ => by simp
  | kv0 :: rest, d1, d2, hfr => by
    simp only [List.foldl_cons]
    rw [setItemK_append_fresh (fun p hp => hfr kv0 (by simp) p hp)]
    exact fold_setItemK_append_fresh rest d1 _
      (fun kv hkv p hp => hfr kv (List.mem_cons_of_mem _ hkv) p hp)

theorem fold_setItemK_keys [DecidableEq κ] {mkKey : String → κ} :
    ∀ (lamCols : List (String × List ℚ)) (d0 : List (κ × List ℚ)) (q : κ × List ℚ),
      q ∈ lamCols.foldl (fun d kv => setItemK d (mkKey kv.1) kv.2) d0 →
      q.1 ∈ d0.map Prod.fst ∨ ∃ kv ∈ lamCols, q.1 = mkKey kv.1
  | [], _, q, hq => Or.inl (List.mem_map.mpr ⟨q, hq, rfl⟩)
  | kv0 :: rest, d0, q, hq => by
    simp only [List.foldl_cons] at hq
    rcases fold_setItemK_keys rest (setItemK d0 (mkKey kv0.1) kv0.2) q hq with h | h
    · obtain ⟨p, hp, hpq⟩ := List.mem_map.mp h
      rcases setItemK_mem hp with hp' | hp'
      · exact Or.inl (by rw [← hpq]; exact List.mem_map.mpr ⟨p, hp', rfl⟩)
      · exact Or.inr ⟨kv0, by simp, by rw [← hpq, hp']⟩
    · obtain ⟨kv, hkv, hk⟩ := h
      exact Or.inr ⟨kv, List.mem_cons_of_mem _ hkv, hk⟩

/-! ## Pipeline inversion lemmas -/

theorem pullKey_ok {κ : Type} [DecidableEq κ] {frame : List (κ × List ℚ)} {k : κ}
    {v : List ℚ} (h : pullKey frame k = .ok v) :
    ∃ p, frame.filter (fun p => decide (p.1 = k)) = [p] ∧ p.1 = k ∧ p.2 = v := by
  unfold pullKey at h
  rcases hf : frame.filter (fun p => decide (p.1 = k)) with _ | ⟨p, _ | ⟨q, t⟩⟩
  · rw [hf] at h
    cases h
  · rw [hf] at h
    cases h
    refine ⟨p, hf, ?_, rfl⟩
    have hp : p ∈ frame.filter (fun p => decide (p.1 = k)) := by rw [hf]; simp
    exact of_decide_eq_true ((List.mem_filter.mp hp).2)
  · rw [hf] at h
    cases h

theorem attachIndex_ok {κ : Type} [DecidableEq κ] {mkKey : String → κ}
    {lambdas : List String} {times : List ℚ} {n : Nat}
    {lamCols : List (String × List ℚ)} {frame0 : List (κ × List ℚ)}
    {tbl : XvgTable κ}
    (h : attachIndex mkKey lambdas times n lamCols frame0 = .ok tbl) :
    ∃ ordered,
      mapME (pullKey (lamCols.foldl (fun d kv => setItemK d (mkKey kv.1) kv.2) frame0))
        (lambdas.map mkKey) = .ok ordered ∧
      tbl = ⟨lambdas, times, colsToRows n ordered,
        ((lamCols.foldl (fun d kv => setItemK d (mkKey kv.1) kv.2) frame0).filter
          (fun p => decide (p.1 ∉ lambdas.map mkKey))).map Prod.fst,
        colsToRows n (((lamCols.foldl (fun d kv => setItemK d (mkKey kv.1) kv.2)
            frame0).filter
          (fun p => decide (p.1 ∉ lambdas.map mkKey))).map Prod.snd)⟩ := by
  simp only [attachIndex] at h
  split at h
  · cases h
  · obtain ⟨ordered, hord, h⟩ := bindE_ok h
    cases h
    exact ⟨ordered, hord, rfl⟩

/-- The data columns that survive `set_index`, when all assigned names are
fresh for the original frame and drawn from the schedule: exactly the
original frame. -/
theorem attach_rest_eq {κ : Type} [DecidableEq κ] {mkKey : String → κ}
    {lambdas : List String} {lamCols : List (String × List ℚ)}
    {frame0 : List (κ × List ℚ)}
    (hfr : ∀ kv ∈ lamCols, ∀ p ∈ frame0, p.1 ≠ mkKey kv.1)
    (hout : ∀ p ∈ frame0, p.1 ∉ lambdas.map mkKey)
    (hnames : ∀ kv ∈ lamCols, kv.1 ∈ lambdas) :
    (lamCols.foldl (fun d kv => setItemK d (mkKey kv.1) kv.2) frame0).filter
      (fun p => decide (p.1 ∉ lambdas.map mkKey)) = frame0 := by
  have hsplit : lamCols.foldl (fun d kv => setItemK d (mkKey kv.1) kv.2) frame0
      = frame0 ++ lamCols.foldl (fun d kv => setItemK d (mkKey kv.1) kv.2) [] := by
    have h := fold_setItemK_append_fresh lamCols frame0 [] hfr
    simpa using h
  rw [hsplit, List.filter_append]
  have h1 : frame0.filter (fun p => decide (p.1 ∉ lambdas.map mkKey)) = frame0 :=
    List.filter_eq_self.mpr (fun p hp => decide_eq_true (hout p hp))
  have h2 : (lamCols.foldl (fun d kv => setItemK d (mkKey kv.1) kv.2) []).filter
      (fun p => decide (p.1 ∉ lambdas.map mkKey)) = [] := by
    rw [List.filter_eq_nil]
    intro q hq
    rcases fold_setItemK_keys lamCols [] q hq with h | ⟨kv, hkv, hk⟩
    · simp at h
    · simp only [decide_eq_true_eq]
      intro hmem
      exact hmem (by rw [hk]; exact List.mem_map.mpr ⟨kv.1, hnames kv hkv, rfl⟩)
  rw [h1, h2, List.append_nil]

theorem optColE_ok {df : DataFrame} {o : Option String} {r : Option (List ℚ)}
    (h : optColE df o = .ok r) :
    (∀ p, o = some p → ∃ pc, df.col? p = some pc ∧ r = some pc) ∧
    (o = none → r = none) := by
  cases o with
  | some p =>
    simp only [optColE] at h
    obtain ⟨pc, hpc, h⟩ := bindE_ok h
    cases h
    constructor
    · intro q hq
      cases hq
      exact ⟨pc, excE_ok hpc, rfl⟩
    · intro hq
      cases hq
  | none =>
    simp only [optColE] at h
    cases h
    constructor
    · intro q hq
      cases hq
    · intro _
      rfl

theorem extract_u_nk_ok_shape {xvg : File} {T : ℚ} {tbl : XvgTable PyVal}
    {sinfo : StateInfo} {df0 : DataFrame}
    (hs : extract_state xvg = .ok sinfo)
    (hd : extract_dataframe xvg = .ok df0)
    (hok : extract_u_nk xvg T = .ok tbl) :
    ∃ c0 times pv u entries lamCols,
      (dedupCols df0).columns.head? = some c0 ∧
      (dedupCols df0).col? c0 = some times ∧
      ((∀ p, ((dedupCols df0).columns.filter
            (fun c => strContains c pv_col_match)).head? = some p →
          ∃ pc, (dedupCols df0).col? p = some pc ∧ pv = some pc) ∧
        (((dedupCols df0).columns.filter
            (fun c => strContains c pv_col_match)).head? = none → pv = none)) ∧
      ((∀ p, ((dedupCols df0).columns.filter
            (fun c => u_col_match.any (fun m => strContains c m))).head? = some p →
          ∃ uc, (dedupCols df0).col? p = some uc ∧ u = some uc) ∧
        (((dedupCols df0).columns.filter
            (fun c => u_col_match.any (fun m => strContains c m))).head? = none →
          u = none)) ∧
      mapME (ukEntry (1 / (k_b * T)) (dedupCols df0) pv u)
        ((dedupCols df0).columns.filter (fun c => strContains c h_col_match))
        = .ok entries ∧
      sampledCols sinfo (dedupCols df0) xvg (dedupCols df0).rows.length = .ok lamCols ∧
      attachIndex PyVal.str sinfo.lambdas times (dedupCols df0).rows.length lamCols
        ((entries.map Prod.fst).map (fun k =>
          (k, (dictGet? (entries.foldl (fun d kv => dictInsert d kv.1 kv.2) []) k).getD [])))
        = .ok tbl := by
  simp only [extract_u_nk, hs, hd, ok_bind] at hok
  obtain ⟨c0, hc0, hok⟩ := bindE_ok hok
  obtain ⟨times, htimes, hok⟩ := bindE_ok hok
  obtain ⟨pv, hpv, hok⟩ := bindE_ok hok
  obtain ⟨u, hu, hok⟩ := bindE_ok hok
  obtain ⟨entries, hentries, hok⟩ := bindE_ok hok
  obtain ⟨lamCols, hlam, hok⟩ := bindE_ok hok
  exact ⟨c0, times, pv, u, entries, lamCols,
    excE_ok hc0, excE_ok htimes, optColE_ok hpv, optColE_ok hu, hentries, hlam, hok⟩

theorem extract_dHdl_ok_shape {xvg : File} {T : ℚ} {tbl : XvgTable String}
    {sinfo : StateInfo} {df : DataFrame}
    (hs : extract_state xvg = .ok sinfo)
    (hd : extract_dataframe xvg = .ok df)
    (hok : extract_dHdl xvg T = .ok tbl) :
    ∃ c0 times lamCols,
      df.columns.head? = some c0 ∧
      df.col? c0 = some times ∧
      (df.columns.filter (fun c => c == c0)).length = 1 ∧
      (df.selectCols ((sinfo.lambdas.map
          (fun l => df.columns.filter (fun c => strContains c l))).flatten)).length
        = (sinfo.lambdas.map (fun l => (strSplitOn l "-").headD l)).length ∧
      sampledCols sinfo df xvg df.rows.length = .ok lamCols ∧
      attachIndex id sinfo.lambdas times df.rows.length lamCols
        ((sinfo.lambdas.map (fun l => (strSplitOn l "-").headD l)).zip
          ((df.selectCols ((sinfo.lambdas.map
            (fun l => df.columns.filter (fun c => strContains c l))).flatten)).map
            (fun c => c.map (fun x => (1 / (k_b * T)) * x))))
        = .ok tbl := by
  simp only [extract_dHdl, hs, hd, ok_bind] at hok
  obtain ⟨c0, hc0, hok⟩ := bindE_ok hok
  obtain ⟨times, htimes, hok⟩ := bindE_ok hok
  refine ⟨c0, times, ?_⟩
  split at hok
  case isTrue hcond =>
    obtain ⟨lamCols, hlam, hok⟩ := bindE_ok hok
    exact ⟨lamCols, excE_ok hc0, excE_ok htimes, hcond.1, by simpa using hcond.2,
      hlam, hok⟩
  case isFalse hlen =>
    exact absurd hok (by simp)

/-- The restricted literal parser yields only numbers and tuples, never a
string value. -/
theorem evalLiteral?_no_str {s : String} {v : PyVal} (h : evalLiteral? s = some v) :
    ∀ t, v ≠ .str t := by
  intro t ht
  subst ht
  unfold evalLiteral? at h
  simp only [] at h
  repeat' split at h
  all_goals exact absurd h (by simp)

/-- A fixed-state result of `_extract_state` never carries a string literal:
its state vector comes from the literal parser. -/
theorem extract_state_fixed_no_str {xvg : File} {s : Int} {ls : List String}
    {sv : PyVal} (h : extract_state xvg = .ok (.fixed s ls sv)) :
    ∀ t, sv ≠ .str t := by
  simp only [extract_state] at h
  cases hf : findSubtitleState xvg with
  | none =>
    rw [hf] at h
    obtain ⟨r, hr, h⟩ := bindE_ok h
    rw [pure_ok] at h
    simp at h
  | some line =>
    rw [hf] at h
    obtain ⟨r, hr, h⟩ := bindE_ok h
    cases h
    simp only [parseSubtitleState] at hr
    obtain ⟨seg1, _, hr⟩ := bindE_ok hr
    obtain ⟨seg2, _, hr⟩ := bindE_ok hr
    obtain ⟨st, _, hr⟩ := bindE_ok hr
    obtain ⟨svseg, _, hr⟩ := bindE_ok hr
    obtain ⟨sv', hsv, hr⟩ := bindE_ok hr
    cases hr
    exact evalLiteral?_no_str (excE_ok hsv)

/-- The parsed target key of one `extract_u_nk` loop entry. -/
theorem ukEntry_key {beta : ℚ} {df : DataFrame} {pv u : Option (List ℚ)}
    {col : String} {key : PyVal} {v : List ℚ}
    (h : ukEntry beta df pv u col = .ok (key, v)) :
    ∃ seg, pyGet? (strSplitOn col "to") 1 = some seg ∧ evalLiteral? seg = some key := by
  simp only [ukEntry] at h
  obtain ⟨seg, hseg, h⟩ := bindE_ok h
  obtain ⟨key', hkey, h⟩ := bindE_ok h
  obtain ⟨dHv, hdHv, h⟩ := bindE_ok h
  cases h
  exact ⟨seg, excE_ok hseg, excE_ok hkey⟩

/-- A successful `mapIdxE` whose step returns pairs headed by its input
yields pairs headed by the inputs. -/
theorem mapIdxE_ok_fst {f : Nat → String → Except PyErr (String × List ℚ)}
    (hf : ∀ i l y, f i l = .ok y → y.1 = l) :
    ∀ {k : Nat} {ls : List String} {lamCols : List (String × List ℚ)},
      mapIdxE f k ls = .ok lamCols → lamCols.map Prod.fst = ls
  | k, [], lamCols, h => by
    simp only [mapIdxE] at h
    cases h
    rfl
  | k, l :: ls, lamCols, h => by
    simp only [mapIdxE] at h
    obtain ⟨y, hy, h⟩ := bindE_ok h
    obtain ⟨ys, hys, h⟩ := bindE_ok h
    cases h
    simp only [List.map_cons]
    rw [hf k l y hy, mapIdxE_ok_fst hf hys]

/-- In the fixed-state branch the assigned column names are exactly the
lambda schedule. -/
theorem sampledCols_names_fixed {s : Int} {lambdas : List String} {sv : PyVal}
    {df : DataFrame} {xvg : File} {n : Nat} {lamCols : List (String × List ℚ)}
    (hsam : sampledCols (.fixed s lambdas sv) df xvg n = .ok lamCols) :
    lamCols.map Prod.fst = lambdas := by
  simp only [sampledCols] at hsam
  refine mapIdxE_ok_fst ?_ hsam
  intro i l y hy
  cases sv with
  | tup vs =>
    obtain ⟨v, _, hy⟩ := bindE_ok hy
    cases hy
    rfl
  | num q =>
    cases hy
    rfl
  | str t => cases hy

/-- In the Thermodynamic-state branch the assigned column names are exactly
the lambda schedule. -/
theorem sampledCols_names_ts {lambdas : List String} {svs : List (List ℚ)}
    {df : DataFrame} {xvg : File} {n : Nat} {lamCols : List (String × List ℚ)}
    (hts : df.columns.contains "Thermodynamic state" = true)
    (hsam : sampledCols (.expanded lambdas svs) df xvg n = .ok lamCols) :
    lamCols.map Prod.fst = lambdas := by
  simp only [sampledCols] at hsam
  rw [if_pos hts] at hsam
  by_cases huniq : (df.columns.filter (fun c => c == "Thermodynamic state")).length = 1
  · rw [if_pos huniq] at hsam
    obtain ⟨ts, _, hsam⟩ := bindE_ok hsam
    refine mapIdxE_ok_fst ?_ hsam
    intro i l y hy
    obtain ⟨v, _, hy⟩ := bindE_ok hy
    cases hy
    rfl
  · rw [if_neg huniq] at hsam
    cases lambdas with
    | nil =>
      cases hsam
      rfl
    | cons a as => cases hsam

/-- The row-index level for lambda `j` equals the column assigned under that
name, whenever the schedule names are pairwise distinct. -/
theorem attach_lamIdx {κ : Type} [DecidableEq κ] {mkKey : String → κ}
    (hinj : ∀ a b, mkKey a = mkKey b → a = b)
    {lambdas : List String} {times : List ℚ} {n : Nat}
    {lamCols : List (String × List ℚ)} {frame0 : List (κ × List ℚ)}
    {tbl : XvgTable κ}
    (hlam : lambdas.Nodup)
    (hmap : lamCols.map Prod.fst = lambdas)
    (hattach : attachIndex mkKey lambdas times n lamCols frame0 = .ok tbl) :
    ∀ r j (hr : r < n) (hj : j < lambdas.length) (colj : List ℚ),
      lamCols.get? j = some (lambdas.get ⟨j, hj⟩, colj) →
      (tbl.lamIdx.getD r []).getD j 0 = colj.getD r 0 := by
  obtain ⟨ordered, hord, htbl⟩ := attachIndex_ok hattach
  subst htbl
  intro r j hr hj colj hcj
  have hkj : (lambdas.map mkKey).get? j = some (mkKey (lambdas.get ⟨j, hj⟩)) := by
    rw [List.get?_map, List.get?_eq_get hj]
    rfl
  obtain ⟨oj, hoj, hpull⟩ := mapME_ok_get? hord j _ hkj
  obtain ⟨p, hfil, hpk, hpv⟩ := pullKey_ok hpull
  have hnd : (lamCols.map Prod.fst).Nodup := by rw [hmap]; exact hlam
  have hmain := fold_setItemK_nodup_get mkKey hinj lamCols frame0 j _ colj hnd hcj
  have hpmem : p ∈ lamCols.foldl (fun d kv => setItemK d (mkKey kv.1) kv.2) frame0 := by
    have hp : p ∈ (lamCols.foldl (fun d kv => setItemK d (mkKey kv.1) kv.2)
        frame0).filter (fun q => decide (q.1 = mkKey (lambdas.get ⟨j, hj⟩))) := by
      rw [hfil]
      simp
    exact List.mem_of_mem_filter hp
  have hpeq := hmain.1 p hpmem hpk
  show ((colsToRows n ordered).getD r []).getD j 0 = _
  rw [getD_of_get? [] (colsToRows_get? _ _ r hr)]
  rw [getD_of_get? 0 (by rw [List.get?_map, hoj]; rfl : (ordered.map
    (fun c => c.getD r 0)).get? j = some (oj.getD r 0))]
  rw [← hpv, hpeq]

/-! ## Claim theorems -/

theorem dedupCols_rows_length (df : DataFrame) :
    (dedupCols df).rows.length = df.rows.length := by
  simp [dedupCols, colsToRows_length]

theorem sampled_fixed_lamIdx {κ : Type} [DecidableEq κ] {mkKey : String → κ}
    (hinj : ∀ a b, mkKey a = mkKey b → a = b)
    {s : Int} {lambdas : List String} {sv : PyVal} {df : DataFrame} {xvg : File}
    {n : Nat} {lamCols : List (String × List ℚ)} {times : List ℚ}
    {frame0 : List (κ × List ℚ)} {tbl : XvgTable κ}
    (hlam : lambdas.Nodup)
    (hsam : sampledCols (.fixed s lambdas sv) df xvg n = .ok lamCols)
    (hattach : attachIndex mkKey lambdas times n lamCols frame0 = .ok tbl) :
    ∀ r j, r < n → j < lambdas.length →
      (tbl.lamIdx.getD r []).getD j 0 = fixedComponent sv j := by
  have hmap : lamCols.map Prod.fst = lambdas := sampledCols_names_fixed hsam
  simp only [sampledCols] at hsam
  have hkey : ∀ m (hm : m < lambdas.length),
      ∃ colm, lamCols.get? m = some (lambdas.get ⟨m, hm⟩, colm) ∧
        ∀ rr, rr < n → colm.getD rr 0 = fixedComponent sv m := by
    intro m hm
    obtain ⟨y, hy, hf⟩ := mapIdxE_ok_get? hsam m _ (List.get?_eq_get hm)
    simp only [Nat.zero_add] at hf
    cases sv with
    | tup vs =>
      obtain ⟨v, hv, hf⟩ := bindE_ok hf
      cases hf
      refine ⟨List.replicate n v, hy, ?_⟩
      intro rr hrr
      rw [getD_of_get? 0 (replicate_get? hrr)]
      have hvs := excE_ok hv
      have hnn : ¬ (Int.ofNat m < 0) := not_lt.mpr (Int.ofNat_zero_le m)
      have hpg : pyGet? vs (Int.ofNat m) = vs.get? m := by
        unfold pyGet?
        rw [if_neg hnn]
        rfl
      rw [hpg] at hvs
      simp only [fixedComponent]
      exact (getD_of_get? 0 hvs).symm
    | num q =>
      cases hf
      exact ⟨List.replicate n q, hy, fun rr hrr => by
        rw [getD_of_get? 0 (replicate_get? hrr)]; rfl⟩
    | str t => cases hf
  intro r j hr hj
  obtain ⟨colj, hcj, hval⟩ := hkey j hj
  rw [attach_lamIdx hinj hlam hmap hattach r j hr hj colj hcj]
  exact hval r hr

/-- Claim C3: for every well-formed fixed-state file (one whose subtitle
line declares the sampled state), every row of the `extract_u_nk` and
`extract_dHdl` outputs carries a row-index lambda tuple equal to the
declared state: component `j` is entry `j` of a declared tuple, and a
declared scalar is broadcast to every row of every component. -/
theorem fixed_state_row_index
    (xvg : File) (T : ℚ) (tu : XvgTable PyVal) (td : XvgTable String)
    (s : Int) (lambdas : List String) (sv : PyVal) (df : DataFrame)
    (hs : extract_state xvg = .ok (.fixed s lambdas sv))
    (hd : extract_dataframe xvg = .ok df)
    (hlam : lambdas.Nodup)
    (hu : extract_u_nk xvg T = .ok tu)
    (hdl : extract_dHdl xvg T = .ok td) :
    ∀ r j, r < df.rows.length → j < lambdas.length →
      (tu.lamIdx.getD r []).getD j 0 = fixedComponent sv j ∧
      (td.lamIdx.getD r []).getD j 0 = fixedComponent sv j := by
  intro r j hr hj
  constructor
  · obtain ⟨c0, times, pv, u, entries, lamCols, _, _, _, _, _, hsam, hattach⟩ :=
      extract_u_nk_ok_shape hs hd hu
    exact sampled_fixed_lamIdx (fun a b h => by simpa using h) hlam hsam hattach r j
      (by rw [dedupCols_rows_length df]; exact hr) hj
  · obtain ⟨c0, times, lamCols, _, _, _, _, hsam, hattach⟩ :=
      extract_dHdl_ok_shape hs hd hdl
    exact sampled_fixed_lamIdx (fun a b h => h) hlam hsam hattach r j hr hj

/-- Witness for claim C3: the tuple-valued fixture `fixedFile` and the
scalar-valued fixture `scalarFile`, both at `T = 300`. -/
theorem fixed_state_row_index_witness :
    ((extract_state fixedFile
        = .ok (.fixed 1 ["coul-lambda", "vdw-lambda"] (.tup [1/4, 1/2])) ∧
      extract_dataframe fixedFile = .ok fixedDF ∧
      (["coul-lambda", "vdw-lambda"] : List String).Nodup ∧
      extract_u_nk fixedFile 300 = .ok fixedUnkTbl ∧
      extract_dHdl fixedFile 300 = .ok fixedDHdlTbl) ∧
    (∀ r j, r < fixedDF.rows.length → j < (["coul-lambda", "vdw-lambda"] : List String).length →
      (fixedUnkTbl.lamIdx.getD r []).getD j 0 = fixedComponent (.tup [1/4, 1/2]) j ∧
      (fixedDHdlTbl.lamIdx.getD r []).getD j 0 = fixedComponent (.tup [1/4, 1/2]) j)) ∧
    ((extract_state scalarFile = .ok (.fixed 0 ["fep-lambda"] (.num (3/4))) ∧
      extract_dataframe scalarFile = .ok scalarDF ∧
      (["fep-lambda"] : List String).Nodup ∧
      extract_u_nk scalarFile 300 = .ok scalarUnkTbl ∧
      extract_dHdl scalarFile 300 = .ok scalarDHdlTbl) ∧
    (∀ r j, r < scalarDF.rows.length → j < (["fep-lambda"] : List String).length →
      (scalarUnkTbl.lamIdx.getD r []).getD j 0 = fixedComponent (.num (3/4)) j ∧
      (scalarDHdlTbl.lamIdx.getD r []).getD j 0 = fixedComponent (.num (3/4)) j)) :=
  ⟨⟨⟨by decide, by decide, by decide, by decide, by decide⟩,
    fixed_state_row_index fixedFile 300 fixedUnkTbl fixedDHdlTbl
      1 ["coul-lambda", "vdw-lambda"] (.tup [1/4, 1/2]) fixedDF
      (by decide) (by decide) (by decide) (by decide) (by decide)⟩,
   ⟨⟨by decide, by decide, by decide, by decide, by decide⟩,
    fixed_state_row_index scalarFile 300 scalarUnkTbl scalarDHdlTbl
      0 ["fep-lambda"] (.num (3/4)) scalarDF
      (by decide) (by decide) (by decide) (by decide) (by decide)⟩⟩

theorem sampled_ts_lamIdx {κ : Type} [DecidableEq κ] {mkKey : String → κ}
    (hinj : ∀ a b, mkKey a = mkKey b → a = b)
    {lambdas : List String} {svs : List (List ℚ)} {df : DataFrame} {xvg : File}
    {n : Nat} {lamCols : List (String × List ℚ)} {times : List ℚ}
    {frame0 : List (κ × List ℚ)} {tbl : XvgTable κ} {ts : List ℚ}
    (hlam : lambdas.Nodup)
    (hts : df.columns.contains "Thermodynamic state" = true)
    (htsc : df.col? "Thermodynamic state" = some ts)
    (hsam : sampledCols (.expanded lambdas svs) df xvg n = .ok lamCols)
    (hattach : attachIndex mkKey lambdas times n lamCols frame0 = .ok tbl) :
    ∀ r j t, r < n → j < lambdas.length → ts.get? r = some t →
      ∃ row v, pyGet? svs (pyTrunc t) = some row ∧
        pyGet? row (Int.ofNat j) = some v ∧
        (tbl.lamIdx.getD r []).getD j 0 = v := by
  have hmap : lamCols.map Prod.fst = lambdas := sampledCols_names_ts hts hsam
  simp only [sampledCols] at hsam
  rw [if_pos hts] at hsam
  intro r j t hr hj htr
  by_cases huniq : (df.columns.filter (fun c => c == "Thermodynamic state")).length = 1
  · rw [if_pos huniq] at hsam
    obtain ⟨ts', hts', hsam⟩ := bindE_ok hsam
    have hts2 := excE_ok hts'
    rw [htsc] at hts2
    cases hts2
    have hkeyfull : ∀ m (hm : m < lambdas.length),
        ∃ colm, lamCols.get? m = some (lambdas.get ⟨m, hm⟩, colm) ∧
          mapME (fun t => do
            let row ← excE PyErr.indexError (pyGet? svs (pyTrunc t))
            excE PyErr.indexError (pyGet? row (Int.ofNat m))) ts = .ok colm := by
      intro m hm
      obtain ⟨y, hy, hf⟩ := mapIdxE_ok_get? hsam m _ (List.get?_eq_get hm)
      simp only [Nat.zero_add] at hf
      obtain ⟨colm, hcolm, hf⟩ := bindE_ok hf
      cases hf
      exact ⟨colm, hy, hcolm⟩
    obtain ⟨colj, hcj, hmapc⟩ := hkeyfull j hj
    obtain ⟨v, hv, hg⟩ := mapME_ok_get? hmapc r t htr
    obtain ⟨row, hrow, hg⟩ := bindE_ok hg
    refine ⟨row, v, excE_ok hrow, excE_ok hg, ?_⟩
    rw [attach_lamIdx hinj hlam hmap hattach r j hr hj colj hcj]
    exact getD_of_get? 0 hv
  · rw [if_neg huniq] at hsam
    cases hL : lambdas with
    | nil =>
      rw [hL] at hj
      simp at hj
    | cons a as =>
      rw [hL] at hsam
      cases hsam

/-- Claim C4 (amended): for every expanded-ensemble file whose raw table
has a "Thermodynamic state" column and whose lambda-schedule names are
pairwise distinct, both assemblers give row `r`, component `j` of the row
index the value `statevec[int(t)][j]`, where `t` is row `r` of that column
and `statevec` the legend-derived state-vector mapping.  (With a duplicated
schedule name the per-component assignments share one frame column, so
every index level bearing that name shows the last component's values --
the counterexample below.) -/
theorem expanded_ts_row_index
    (xvg : File) (T : ℚ) (tu : XvgTable PyVal) (td : XvgTable String)
    (lambdas : List String) (svs : List (List ℚ)) (df : DataFrame)
    (tsu tsd : List ℚ)
    (hs : extract_state xvg = .ok (.expanded lambdas svs))
    (hd : extract_dataframe xvg = .ok df)
    (hlam : lambdas.Nodup)
    (htsu : (dedupCols df).columns.contains "Thermodynamic state" = true)
    (htsd : df.columns.contains "Thermodynamic state" = true)
    (htscu : (dedupCols df).col? "Thermodynamic state" = some tsu)
    (htscd : df.col? "Thermodynamic state" = some tsd)
    (hu : extract_u_nk xvg T = .ok tu)
    (hdl : extract_dHdl xvg T = .ok td) :
    ∀ r j t, r < df.rows.length → j < lambdas.length →
      (tsu.get? r = some t →
        ∃ row v, pyGet? svs (pyTrunc t) = some row ∧
          pyGet? row (Int.ofNat j) = some v ∧
          (tu.lamIdx.getD r []).getD j 0 = v) ∧
      (tsd.get? r = some t →
        ∃ row v, pyGet? svs (pyTrunc t) = some row ∧
          pyGet? row (Int.ofNat j) = some v ∧
          (td.lamIdx.getD r []).getD j 0 = v) := by
  intro r j t hr hj
  constructor
  · intro htr
    obtain ⟨c0, times, pv, u, entries, lamCols, _, _, _, _, _, hsam, hattach⟩ :=
      extract_u_nk_ok_shape hs hd hu
    exact sampled_ts_lamIdx (fun a b h => by simpa using h) hlam htsu htscu hsam
      hattach r j t (by rw [dedupCols_rows_length df]; exact hr) hj htr
  · intro htr
    obtain ⟨c0, times, lamCols, _, _, _, _, hsam, hattach⟩ :=
      extract_dHdl_ok_shape hs hd hdl
    exact sampled_ts_lamIdx (fun a b h => h) hlam htsd htscd hsam hattach r j t hr hj htr

/-- Witness for claim C4: the two-frame expanded-ensemble fixture at
`T = 300`, with state indices 0 and 1 and `statevec {0: (0.0,), 1: (1.0,)}`:
the row-index lambda column is 0.0 for the first row and 1.0 for the second
in both tables. -/
theorem expanded_ts_row_index_witness :
    (extract_state expandedFile = .ok (.expanded ["fep-lambda"] [[0], [1]]) ∧
      extract_dataframe expandedFile = .ok expandedDF ∧
      (["fep-lambda"] : List String).Nodup ∧
      (dedupCols expandedDF).columns.contains "Thermodynamic state" = true ∧
      expandedDF.columns.contains "Thermodynamic state" = true ∧
      (dedupCols expandedDF).col? "Thermodynamic state" = some [0, 1] ∧
      expandedDF.col? "Thermodynamic state" = some [0, 1] ∧
      extract_u_nk expandedFile 300 = .ok expandedUnkTbl ∧
      extract_dHdl expandedFile 300 = .ok expandedDHdlTbl) ∧
    (∀ r j t, r < expandedDF.rows.length → j < (["fep-lambda"] : List String).length →
      (([0, 1] : List ℚ).get? r = some t →
        ∃ row v, pyGet? [[0], [1]] (pyTrunc t) = some row ∧
          pyGet? row (Int.ofNat j) = some v ∧
          (expandedUnkTbl.lamIdx.getD r []).getD j 0 = v) ∧
      (([0, 1] : List ℚ).get? r = some t →
        ∃ row v, pyGet? [[0], [1]] (pyTrunc t) = some row ∧
          pyGet? row (Int.ofNat j) = some v ∧
          (expandedDHdlTbl.lamIdx.getD r []).getD j 0 = v)) ∧
    ((expandedUnkTbl.lamIdx.getD 0 []).getD 0 0 = 0 ∧
      (expandedUnkTbl.lamIdx.getD 1 []).getD 0 0 = 1 ∧
      (expandedDHdlTbl.lamIdx.getD 0 []).getD 0 0 = 0 ∧
      (expandedDHdlTbl.lamIdx.getD 1 []).getD 0 0 = 1) :=
  ⟨⟨by decide, by decide, by decide, by decide, by decide, by decide, by decide,
      by decide, by decide⟩,
    expanded_ts_row_index expandedFile 300 expandedUnkTbl expandedDHdlTbl
      ["fep-lambda"] [[0], [1]] expandedDF [0, 1] [0, 1]
      (by decide) (by decide) (by decide) (by decide) (by decide) (by decide)
      (by decide) (by decide) (by decide),
    by decide⟩

/-- Counterexample to claim C4 as stated: `dupLamFile` declares the token
"fep-lambda" twice, the frame sampled state 0 and
`statevec[0] = (0.25, 0.75)`, yet index component 0 of the `extract_u_nk`
row index is 0.75 -- the second assignment to the shared column name
overwrote the first -- not `statevec[int(0)][0] = 0.25` as the claim
requires. -/
theorem expanded_ts_row_index_counterexample :
    extract_state dupLamFile = .ok (.expanded ["fep-lambda", "fep-lambda"] [[1/4, 3/4]]) ∧
    extract_dataframe dupLamFile = .ok dupLamDF ∧
    dupLamDF.columns.contains "Thermodynamic state" = true ∧
    dupLamDF.col? "Thermodynamic state" = some [0] ∧
    extract_u_nk dupLamFile 300 = .ok dupLamTbl ∧
    pyGet? [[(1:ℚ)/4, 3/4]] (pyTrunc 0) = some [1/4, 3/4] ∧
    pyGet? [(1:ℚ)/4, 3/4] (Int.ofNat 0) = some (1/4) ∧
    (dupLamTbl.lamIdx.getD 0 []).getD 0 0 = 3/4 ∧
    ¬ ((dupLamTbl.lamIdx.getD 0 []).getD 0 0 = 1/4) :=
  ⟨by decide, by decide, by decide, by decide, by decide, by decide, by decide,
    by decide, by decide⟩

theorem ukEntry_value {beta : ℚ} {df : DataFrame} {pv u : Option (List ℚ)} {col : String}
    {key : PyVal} {v : List ℚ}
    (hpv : ∀ pc, pv = some pc → pc.length = df.rows.length)
    (hu : ∀ uc, u = some uc → uc.length = df.rows.length)
    (h : ukEntry beta df pv u col = .ok (key, v)) :
    (∃ seg, pyGet? (strSplitOn col "to") 1 = some seg ∧ evalLiteral? seg = some key) ∧
    ∃ dHv, df.col? col = some dHv ∧
      ∀ r, r < df.rows.length →
        v.getD r 0 = beta * dHv.getD r 0 + optScaled beta pv r + optScaled beta u r := by
  simp only [ukEntry] at h
  obtain ⟨seg, hseg, h⟩ := bindE_ok h
  obtain ⟨key', hkey, h⟩ := bindE_ok h
  obtain ⟨dHv, hdHv, h⟩ := bindE_ok h
  cases h
  have hdHv' := excE_ok hdHv
  refine ⟨⟨seg, excE_ok hseg, excE_ok hkey⟩, dHv, hdHv', ?_⟩
  intro r hr
  have hlen1 : r < dHv.length := by rw [col?_length hdHv']; exact hr
  obtain ⟨a, ha⟩ : ∃ a, dHv.get? r = some a := ⟨_, List.get?_eq_get hlen1⟩
  have hv1 : (dHv.map (fun x => beta * x)).get? r = some (beta * a) := by
    rw [List.get?_map, ha]
    rfl
  rw [getD_of_get? 0 ha]
  cases pv with
  | none =>
    cases u with
    | none =>
      simp only [optScaled]
      rw [getD_of_get? 0 hv1]
      ring
    | some uv =>
      have hbu : r < uv.length := by rw [hu uv rfl]; exact hr
      obtain ⟨c, hc⟩ : ∃ c, uv.get? r = some c := ⟨_, List.get?_eq_get hbu⟩
      have hvu : (uv.map (fun x => beta * x)).get? r = some (beta * c) := by
        rw [List.get?_map, hc]
        rfl
      simp only [optScaled]
      rw [getD_of_get? 0 (zipWith_get?_some hv1 hvu), getD_of_get? 0 hc]
      ring
  | some pvv =>
    have hbp : r < pvv.length := by rw [hpv pvv rfl]; exact hr
    obtain ⟨b, hb⟩ : ∃ b, pvv.get? r = some b := ⟨_, List.get?_eq_get hbp⟩
    have hvp : (pvv.map (fun x => beta * x)).get? r = some (beta * b) := by
      rw [List.get?_map, hb]
      rfl
    cases u with
    | none =>
      simp only [optScaled]
      rw [getD_of_get? 0 (zipWith_get?_some hv1 hvp), getD_of_get? 0 hb]
      ring
    | some uv =>
      have hbu : r < uv.length := by rw [hu uv rfl]; exact hr
      obtain ⟨c, hc⟩ : ∃ c, uv.get? r = some c := ⟨_, List.get?_eq_get hbu⟩
      have hvu : (uv.map (fun x => beta * x)).get? r = some (beta * c) := by
        rw [List.get?_map, hc]
        rfl
      simp only [optScaled]
      rw [getD_of_get? 0 (zipWith_get?_some (zipWith_get?_some hv1 hvp) hvu),
        getD_of_get? 0 hb, getD_of_get? 0 hc]

theorem optScaled_eq_optColTerm {beta : ℚ} {df : DataFrame} {o : Option String}
    {pv : Option (List ℚ)}
    (hchar : (∀ p, o = some p → ∃ pc, df.col? p = some pc ∧ pv = some pc) ∧
             (o = none → pv = none)) (r : Nat) :
    optScaled beta pv r = beta * optColTerm df o r := by
  cases hh : o with
  | some p =>
    obtain ⟨pc, hcol, hpveq⟩ := hchar.1 p hh
    rw [hpveq]
    simp [optScaled, optColTerm, hcol]
  | none =>
    rw [hchar.2 hh]
    simp [optScaled, optColTerm]

/-- Claim C1 (amended): for every input file and `T > 0` on which
`extract_u_nk` succeeds, whose Hamiltonian-difference columns parse to
pairwise distinct target keys, and which is not a REX legend-fallback file
(an expanded-ensemble file must carry a "Thermodynamic state" column;
otherwise legend keys outside the schedule survive as extra data columns --
`rex_legend_extra_column`), the output has one column per marker column,
keyed by the literal parsed from the text after "to" in that column's name,
and its value at every frame is `beta*(dH + pV + U)` with `beta = 1/(k_b*T)`,
`pV` the first raw column containing "pV" (absent term 0), and `U` the first
raw column containing "Total Energy" or "Potential Energy" (absent term 0). -/
theorem u_nk_reduced_potentials
    (xvg : File) (T : ℚ) (tbl : XvgTable PyVal) (sinfo : StateInfo) (df0 : DataFrame)
    (hT : 0 < T)
    (hs : extract_state xvg = .ok sinfo)
    (hd : extract_dataframe xvg = .ok df0)
    (hnoleg : ∀ ls svs, sinfo = .expanded ls svs →
      (dedupCols df0).columns.contains "Thermodynamic state" = true)
    (hok : extract_u_nk xvg T = .ok tbl)
    (hkeys : tbl.cols.Nodup) :
    tbl.cols.length
      = ((dedupCols df0).columns.filter (fun c => strContains c h_col_match)).length ∧
    ∀ i, i < ((dedupCols df0).columns.filter (fun c => strContains c h_col_match)).length →
      (∃ seg,
        pyGet? (strSplitOn (((dedupCols df0).columns.filter
            (fun c => strContains c h_col_match)).getD i "") "to") 1 = some seg ∧
        evalLiteral? seg = some (tbl.cols.getD i default)) ∧
      ∀ r, r < (dedupCols df0).rows.length →
        (tbl.values.getD r []).getD i 0
          = (1 / (k_b * T)) *
            ((((dedupCols df0).col? (((dedupCols df0).columns.filter
                (fun c => strContains c h_col_match)).getD i "")).getD []).getD r 0
             + optColTerm (dedupCols df0) (((dedupCols df0).columns.filter
                 (fun c => strContains c pv_col_match)).head?) r
             + optColTerm (dedupCols df0) (((dedupCols df0).columns.filter
                 (fun c => u_col_match.any (fun m => strContains c m))).head?) r) := by
  obtain ⟨c0, times, pv, u, entries, lamCols, hc0, htimes, hpvc, huc, hent, hsam, hattach⟩ :=
    extract_u_nk_ok_shape hs hd hok
  have hlenE := mapME_ok_length hent
  have hmapfst : lamCols.map Prod.fst = sinfo.lambdas := by
    cases sinfo with
    | fixed s' ls' sv' => exact sampledCols_names_fixed hsam
    | expanded ls' svs' => exact sampledCols_names_ts (hnoleg ls' svs' rfl) hsam
  have hnames : ∀ kv ∈ lamCols, kv.1 ∈ sinfo.lambdas := by
    intro kv hkv
    rw [← hmapfst]
    exact List.mem_map.mpr ⟨kv, hkv, rfl⟩
  have hnostr : ∀ k ∈ entries.map Prod.fst, ∀ t, k ≠ .str t := by
    intro k hk
    obtain ⟨e, he, rfl⟩ := List.mem_map.mp hk
    obtain ⟨i, hi⟩ := List.mem_iff_get?.mp he
    obtain ⟨hiL, _⟩ := List.get?_eq_some.mp hi
    have hiDH : i < ((dedupCols df0).columns.filter
        (fun c => strContains c h_col_match)).length := by rw [← hlenE]; exact hiL
    obtain ⟨y, hy, hf⟩ := mapME_ok_get? hent i _ (List.get?_eq_get hiDH)
    have hye : y = e := by
      rw [hi] at hy
      cases hy
      rfl
    subst hye
    obtain ⟨ke, ve⟩ := y
    obtain ⟨seg, _, hev⟩ := ukEntry_key hf
    exact evalLiteral?_no_str hev
  have hfr : ∀ kv ∈ lamCols, ∀ p ∈ ((entries.map Prod.fst).map (fun k =>
      (k, (dictGet? (entries.foldl (fun d kv => dictInsert d kv.1 kv.2) []) k).getD []))),
      p.1 ≠ PyVal.str kv.1 := by
    intro kv _ p hp
    obtain ⟨k, hk, rfl⟩ := List.mem_map.mp hp
    exact hnostr k hk kv.1
  have hout : ∀ p ∈ ((entries.map Prod.fst).map (fun k =>
      (k, (dictGet? (entries.foldl (fun d kv => dictInsert d kv.1 kv.2) []) k).getD []))),
      p.1 ∉ sinfo.lambdas.map PyVal.str := by
    intro p hp hmem
    obtain ⟨k, hk, rfl⟩ := List.mem_map.mp hp
    obtain ⟨l, _, he⟩ := List.mem_map.mp hmem
    exact hnostr k hk l he.symm
  obtain ⟨ordered, hord, htbl⟩ := attachIndex_ok hattach
  rw [attach_rest_eq hfr hout hnames] at htbl
  have hc : tbl.cols = entries.map Prod.fst := by
    rw [htbl]
    rw [List.map_map]
    exact map_id_of_eq (fun x _ => rfl)
  have hv : tbl.values = colsToRows (dedupCols df0).rows.length
      ((entries.map Prod.fst).map (fun k =>
        (dictGet? (entries.foldl (fun d kv => dictInsert d kv.1 kv.2) []) k).getD [])) := by
    rw [htbl]
    exact congrArg (colsToRows (dedupCols df0).rows.length) (by rw [List.map_map]; rfl)
  rw [hc] at hkeys
  have hnodup : (entries.map Prod.fst).Nodup := hkeys
  rw [hc, hv]
  refine ⟨by simpa using hlenE, ?_⟩
  intro i hi
  have hcoli := List.get?_eq_get hi
  obtain ⟨entry, hei, hfe⟩ := mapME_ok_get? hent i _ hcoli
  obtain ⟨key_i, v_i⟩ := entry
  have hpvlen : ∀ pc, pv = some pc → pc.length = (dedupCols df0).rows.length := by
    intro pc hpc
    cases hh : ((dedupCols df0).columns.filter
        (fun c => strContains c pv_col_match)).head? with
    | some p =>
      obtain ⟨pc0, hcol, hpveq⟩ := hpvc.1 p hh
      rw [hpveq] at hpc
      cases hpc
      exact col?_length hcol
    | none =>
      rw [hpvc.2 hh] at hpc
      cases hpc
  have hulen : ∀ uc, u = some uc → uc.length = (dedupCols df0).rows.length := by
    intro uc huc'
    cases hh : ((dedupCols df0).columns.filter
        (fun c => u_col_match.any (fun m => strContains c m))).head? with
    | some p =>
      obtain ⟨uc0, hcol, hueq⟩ := huc.1 p hh
      rw [hueq] at huc'
      cases huc'
      exact col?_length hcol
    | none =>
      rw [huc.2 hh] at huc'
      cases huc'
  obtain ⟨⟨seg, hs1, hs2⟩, dHv, hdHv, hvals⟩ := ukEntry_value hpvlen hulen hfe
  constructor
  · refine ⟨seg, by rw [getD_of_get? "" hcoli]; exact hs1, ?_⟩
    show evalLiteral? seg = some ((entries.map Prod.fst).getD i default)
    rw [getD_of_get? default
      (show (entries.map Prod.fst).get? i = some key_i by rw [List.get?_map, hei]; rfl)]
    exact hs2
  · intro r hr
    show ((colsToRows (dedupCols df0).rows.length ((entries.map Prod.fst).map (fun k =>
        (dictGet? (entries.foldl (fun d kv => dictInsert d kv.1 kv.2) []) k).getD
          []))).getD r []).getD i 0 = _
    rw [foldl_dictInsert_eq_append entries [] hnodup
      (by intro p hp q hq; simp at hq), List.nil_append]
    rw [getD_of_get? [] (colsToRows_get? _ _ r hr)]
    have hL : ((entries.map Prod.fst).map (fun k =>
        (dictGet? entries k).getD [])).get? i = some v_i := by
      rw [List.get?_map, List.get?_map, hei]
      simp [dictGet?_of_get? hnodup hei]
    rw [getD_of_get? 0 (show (((entries.map Prod.fst).map (fun k =>
        (dictGet? entries k).getD [])).map (fun c => c.getD r 0)).get? i
          = some (v_i.getD r 0) by rw [List.get?_map, hL]; rfl)]
    rw [hvals r hr]
    rw [getD_of_get? "" hcoli, hdHv]
    rw [optScaled_eq_optColTerm hpvc r, optScaled_eq_optColTerm huc r]
    simp only [Option.getD_some]
    ring

/-- Counterexample to claim C1 as stated: in `dupTargetFile` the two marker
columns parse to the same target key, so the first output column holds the
second column's (last-written) values `beta*20`, not `beta*(dH)` = `beta*10`
of the first marker column, even though no pV or energy column exists. -/
theorem u_nk_reduced_potentials_counterexample :
    extract_dataframe dupTargetFile = .ok dupTargetDF ∧
    extract_u_nk dupTargetFile 300 = .ok dupTargetTbl ∧
    ((dedupCols dupTargetDF).columns.filter (fun c => strContains c h_col_match)).length
      = 2 ∧
    (((dedupCols dupTargetDF).col? (((dedupCols dupTargetDF).columns.filter
        (fun c => strContains c h_col_match)).getD 0 "")).getD []).getD 0 0 = 10 ∧
    ((dedupCols dupTargetDF).columns.filter
      (fun c => strContains c pv_col_match)).head? = none ∧
    ((dedupCols dupTargetDF).columns.filter
      (fun c => u_col_match.any (fun m => strContains c m))).head? = none ∧
    ¬ ((dupTargetTbl.values.getD 0 []).getD 0 0
        = (1 / (k_b * 300)) *
          ((((dedupCols dupTargetDF).col? (((dedupCols dupTargetDF).columns.filter
              (fun c => strContains c h_col_match)).getD 0 "")).getD []).getD 0 0
           + optColTerm (dedupCols dupTargetDF) (((dedupCols dupTargetDF).columns.filter
               (fun c => strContains c pv_col_match)).head?) 0
           + optColTerm (dedupCols dupTargetDF) (((dedupCols dupTargetDF).columns.filter
               (fun c => u_col_match.any (fun m => strContains c m))).head?) 0)) := by
  refine ⟨by decide, by decide, by decide, by decide, by decide, by decide, by decide⟩

/-- Witness for claim C1 (amended): the fixture `fixedFile` at `T = 300`,
whose two marker columns carry distinct target keys and which has both a pV
and a Potential Energy column. -/
theorem u_nk_reduced_potentials_witness :
    ((0 : ℚ) < 300 ∧
      extract_state fixedFile = .ok fixedSinfo ∧
      extract_dataframe fixedFile = .ok fixedDF ∧
      (∀ ls svs, fixedSinfo = .expanded ls svs →
        (dedupCols fixedDF).columns.contains "Thermodynamic state" = true) ∧
      extract_u_nk fixedFile 300 = .ok fixedUnkTbl ∧
      fixedUnkTbl.cols.Nodup) ∧
    (fixedUnkTbl.cols.length
        = ((dedupCols fixedDF).columns.filter (fun c => strContains c h_col_match)).length ∧
      ∀ i, i < ((dedupCols fixedDF).columns.filter (fun c => strContains c h_col_match)).length →
        (∃ seg,
          pyGet? (strSplitOn (((dedupCols fixedDF).columns.filter
              (fun c => strContains c h_col_match)).getD i "") "to") 1 = some seg ∧
          evalLiteral? seg = some (fixedUnkTbl.cols.getD i default)) ∧
        ∀ r, r < (dedupCols fixedDF).rows.length →
          (fixedUnkTbl.values.getD r []).getD i 0
            = (1 / (k_b * 300)) *
              ((((dedupCols fixedDF).col? (((dedupCols fixedDF).columns.filter
                  (fun c => strContains c h_col_match)).getD i "")).getD []).getD r 0
               + optColTerm (dedupCols fixedDF) (((dedupCols fixedDF).columns.filter
                   (fun c => strContains c pv_col_match)).head?) r
               + optColTerm (dedupCols fixedDF) (((dedupCols fixedDF).columns.filter
                   (fun c => u_col_match.any (fun m => strContains c m))).head?) r)) :=
  ⟨⟨by norm_num, by decide, by decide, by intro ls svs h; simp [fixedSinfo] at h,
      by decide, by decide⟩,
    u_nk_reduced_potentials fixedFile 300 fixedUnkTbl fixedSinfo fixedDF
      (by norm_num) (by decide) (by decide)
      (by intro ls svs h; simp [fixedSinfo] at h) (by decide) (by decide)⟩

/-- In the REX legend fallback a legend key outside the lambda schedule
survives as an extra data column: on `rexLeftoverFile` (no marker column at
all) `extract_u_nk` succeeds with one data column "alt" carrying the legend
value 0.7, with pairwise distinct (single) data keys -- the source of the
expanded-ensemble hypothesis in the amended C1 statement. -/
theorem rex_legend_extra_column :
    extract_u_nk rexLeftoverFile 300 = .ok rexLeftoverTbl ∧
    rexLeftoverTbl.cols.Nodup ∧
    ((dedupCols ⟨["Time (ps)", "lambda1 3 0.5"], [[0, 1]]⟩).columns.filter
      (fun c => strContains c h_col_match)).length = 0 ∧
    rexLeftoverTbl.cols.length = 1 :=
  ⟨by decide, by decide, by decide, by decide⟩

theorem dedupPairs_nodup :
    ∀ (ps : List (String × List ℚ)) (seen : List String),
      ((dedupPairs ps seen).map (fun p => p.1)).Nodup ∧
      ∀ c ∈ (dedupPairs ps seen).map (fun p => p.1), ¬ seen.contains c = true
  | [], seen => by simp [dedupPairs]
  | (c, v) :: rest, seen => by
    by_cases hc : seen.contains c = true
    · simp only [dedupPairs, if_pos hc]
      exact dedupPairs_nodup rest seen
    · simp only [dedupPairs, if_neg hc, List.map_cons]
      obtain ⟨hnd, hdisj⟩ := dedupPairs_nodup rest (c :: seen)
      refine ⟨List.nodup_cons.mpr ⟨?_, hnd⟩, ?_⟩
      · intro hmem
        exact hdisj c hmem (by simp)
      · intro x hx
        rcases List.mem_cons.mp hx with hx | hx
        · subst hx
          exact hc
        · intro hcx
          refine hdisj x hx ?_
          have hxs : x ∈ seen := by simpa using hcx
          simp [hxs]

/-- Claim C5 (amended): `extract_u_nk` collapses duplicate raw columns to
the first occurrence before any extraction -- its working frame's column
names are always duplicate-free -- but `extract_dHdl` applies no such
collapse: on a file whose gradient column name appears twice it raises a
ValueError instead of producing a table. -/
theorem dedup_in_u_nk_only
    (xvg : File) (df0 : DataFrame)
    (hd : extract_dataframe xvg = .ok df0) :
    (dedupCols df0).columns.Nodup ∧
    extract_dHdl dupColsFile 300 = .error .valueError := by
  refine ⟨?_, by decide⟩
  show ((dedupPairs df0.colPairs []).map (fun p => p.1)).Nodup
  exact (dedupPairs_nodup df0.colPairs []).1

/-- Counterexample to claim C5 as stated: on `dupColsFile` (a duplicated
gradient column name) `extract_dHdl` raises a ValueError, whereas the
spec-modelled collapse-first variant returns a table -- so duplicates are
not "collapsed to the first occurrence before any further extraction in
both assemblers". -/
theorem dedup_in_u_nk_only_counterexample :
    extract_dHdl dupColsFile 300 = .error .valueError ∧
    extract_dHdl dupColsFile 300 ≠ extract_dHdl_dedupFirst dupColsFile 300 := by
  exact ⟨by decide, by decide⟩

/-- Witness for claim C5 (amended), at `dupColsFile` itself. -/
theorem dedup_in_u_nk_only_witness :
    extract_dataframe dupColsFile = .ok dupColsDF ∧
    ((dedupCols dupColsDF).columns.Nodup ∧
      extract_dHdl dupColsFile 300 = .error .valueError) :=
  ⟨by decide, dedup_in_u_nk_only dupColsFile dupColsDF (by decide)⟩

theorem startsWith_amp_cons {s : String}
    (hamp : strStartsWith s "&" = true) :
    ∃ t, s.data = '&' :: t := by
  rw [strStartsWith] at hamp
  cases hl : s.data with
  | nil =>
    rw [hl] at hamp
    simp [List.isPrefixOf] at hamp
  | cons c t =>
    rw [hl] at hamp
    simp [List.isPrefixOf] at hamp
    exact ⟨t, by rw [← hamp]⟩

theorem scanTail_amp {line : String} (hamp : strStartsWith line "&" = true)
    (st : DFScan) :
    scanTail line st = .error .notImplementedError := by
  obtain ⟨t, ht⟩ := startsWith_amp_cons hamp
  have hsharp : strStartsWith line "#" = false := by
    rw [strStartsWith, ht]
    simp [List.isPrefixOf]
  have hat : strStartsWith line "@" = false := by
    rw [strStartsWith, ht]
    simp [List.isPrefixOf]
  simp only [scanTail]
  rw [if_neg (by simp [hsharp, hat]), if_pos hamp]

theorem scanTail_ok {line : String} (hamp : strStartsWith line "&" = false)
    (st : DFScan) :
    ∃ st', scanTail line st = .ok st' := by
  simp only [scanTail]
  by_cases hc : (strStartsWith line "#" || strStartsWith line "@") = true
  · rw [if_pos hc]
    exact ⟨_, rfl⟩
  · rw [if_neg hc, if_neg (by simp [hamp])]
    exact ⟨_, rfl⟩

theorem scanLine_amp (st : DFScan) {line : String}
    (hamp : strStartsWith (strTrim line) "&" = true)
    (hwf : (strContains (strTrim line) "label" && strContains (strTrim line) "xaxis") = true →
      (pyGet? (strSplitOn (strTrim line) "\"") (-2)).isSome = true) :
    scanLine st line = .error .notImplementedError := by
  obtain ⟨t, ht⟩ := startsWith_amp_cons hamp
  simp only [scanLine]
  rw [if_neg (by rw [ht]; simp)]
  by_cases hbc : (strContains (strTrim line) "label" && strContains (strTrim line) "xaxis") = true
  · rw [if_pos hbc]
    obtain ⟨x, hx⟩ := Option.isSome_iff_exists.mp (hwf hbc)
    rw [hx]
    simp only [excE, Except.map, Except.bind]
    exact scanTail_amp hamp _
  · rw [if_neg hbc]
    simp only [Except.bind]
    exact scanTail_amp hamp st

theorem scanLine_ok_of_not_amp (st : DFScan) {line : String}
    (hamp : strStartsWith (strTrim line) "&" = false)
    (hwf : (strContains (strTrim line) "label" && strContains (strTrim line) "xaxis") = true →
      (pyGet? (strSplitOn (strTrim line) "\"") (-2)).isSome = true) :
    ∃ st', scanLine st line = .ok st' := by
  simp only [scanLine]
  by_cases h0 : (strTrim line).data.length = 0
  · rw [if_pos h0]
    exact ⟨st, rfl⟩
  · rw [if_neg h0]
    by_cases hbc : (strContains (strTrim line) "label" && strContains (strTrim line) "xaxis") = true
    · rw [if_pos hbc]
      obtain ⟨x, hx⟩ := Option.isSome_iff_exists.mp (hwf hbc)
      rw [hx]
      simp only [excE, Except.map, Except.bind]
      exact scanTail_ok hamp _
    · rw [if_neg hbc]
      simp only [Except.bind]
      exact scanTail_ok hamp st

theorem scanLines_amp :
    ∀ (ls : List String) (st : DFScan),
      (∃ l ∈ ls, strStartsWith (strTrim l) "&" = true) →
      (∀ l ∈ ls, (strContains (strTrim l) "label" && strContains (strTrim l) "xaxis") = true →
        (pyGet? (strSplitOn (strTrim l) "\"") (-2)).isSome = true) →
      foldME scanLine st ls = .error .notImplementedError
  | [], _, hex, _ => by simp at hex
  | l :: ls, st, hex, hwf => by
    by_cases hl : strStartsWith (strTrim l) "&" = true
    · have h1 := scanLine_amp st hl (hwf l (by simp))
      simp only [foldME]
      rw [h1]
      rfl
    · have hl' : strStartsWith (strTrim l) "&" = false := by simpa using hl
      obtain ⟨st', hst'⟩ := scanLine_ok_of_not_amp st hl' (hwf l (by simp))
      simp only [foldME]
      rw [hst', ok_bind]
      refine scanLines_amp ls st' ?_ ?_
      · obtain ⟨w, hw, hws⟩ := hex
        rcases List.mem_cons.mp hw with rfl | hw'
        · exact absurd hws hl
        · exact ⟨w, hw', hws⟩
      · intro x hx hc
        exact hwf x (List.mem_cons_of_mem _ hx) hc

theorem scanTail_xaxis {line : String} {st st' : DFScan}
    (h : scanTail line st = .ok st') : st'.xaxis = st.xaxis := by
  simp only [scanTail] at h
  by_cases hc : (strStartsWith line "#" || strStartsWith line "@") = true
  · rw [if_pos hc] at h
    cases h
    by_cases hleg : (strStartsWith line "@ s" && !strContains line "subtitle") = true
    · rw [if_pos hleg]
    · rw [if_neg hleg]
  · rw [if_neg hc] at h
    by_cases ha : strStartsWith line "&" = true
    · rw [if_pos ha] at h
      cases h
    · rw [if_neg ha] at h
      cases h
      by_cases hleg : (strStartsWith line "@ s" && !strContains line "subtitle") = true
      · rw [if_pos hleg]
      · rw [if_neg hleg]

theorem scanLine_xaxis {st st' : DFScan} {line : String}
    (hno : ¬ ((strContains (strTrim line) "label" && strContains (strTrim line) "xaxis") = true))
    (h : scanLine st line = .ok st') : st'.xaxis = st.xaxis := by
  simp only [scanLine] at h
  by_cases h0 : (strTrim line).data.length = 0
  · rw [if_pos h0] at h
    cases h
    rfl
  · rw [if_neg h0, if_neg hno] at h
    simp only [Except.bind] at h
    exact scanTail_xaxis h

theorem scanLines_no_axis :
    ∀ (ls : List String) (st st' : DFScan),
      (∀ l ∈ ls, ¬ ((strContains (strTrim l) "label" && strContains (strTrim l) "xaxis") = true)) →
      foldME scanLine st ls = .ok st' → st'.xaxis = st.xaxis
  | [], st, st', _, h => by
    simp only [foldME] at h
    cases h
    rfl
  | l :: ls, st, st', hno, h => by
    simp only [foldME] at h
    obtain ⟨st1, h1, h⟩ := bindE_ok h
    have e1 := scanLine_xaxis (hno l (by simp)) h1
    have e2 := scanLines_no_axis ls st1 st' (fun x hx => hno x (List.mem_cons_of_mem _ hx)) h
    rw [e2, e1]

theorem extract_u_nk_ok_dataframe {xvg : File} {T : ℚ} {tbl : XvgTable PyVal}
    (h : extract_u_nk xvg T = .ok tbl) :
    ∃ df0, extract_dataframe xvg = .ok df0 := by
  simp only [extract_u_nk] at h
  obtain ⟨sinfo, _, h⟩ := bindE_ok h
  obtain ⟨df0, hd0, _⟩ := bindE_ok h
  exact ⟨df0, hd0⟩

theorem extract_dHdl_ok_dataframe {xvg : File} {T : ℚ} {tbl : XvgTable String}
    (h : extract_dHdl xvg T = .ok tbl) :
    ∃ df0, extract_dataframe xvg = .ok df0 := by
  simp only [extract_dHdl] at h
  obtain ⟨sinfo, _, h⟩ := bindE_ok h
  obtain ⟨df0, hd0, _⟩ := bindE_ok h
  exact ⟨df0, hd0⟩

/-- Claim C6 (amended): a file whose data section holds a line beginning
with the multi-block marker `&`, and whose axis-label lines each carry their
quoted value, makes the line-table extractor raise NotImplementedError
(unsupported format), and neither `extract_u_nk` nor `extract_dHdl` returns
any table, partial or otherwise.  (The axis-label hypothesis is necessary: a
quoteless label/xaxis line raises IndexError before the `&` line is ever
reached -- the counterexample below -- so such files get no
unsupported-format error.) -/
theorem multi_block_fatal
    (xvg : File) (T : ℚ)
    (hamp : ∃ l ∈ xvg, strStartsWith (strTrim l) "&" = true)
    (hwf : ∀ l ∈ xvg, (strContains (strTrim l) "label" && strContains (strTrim l) "xaxis") = true →
      (pyGet? (strSplitOn (strTrim l) "\"") (-2)).isSome = true) :
    extract_dataframe xvg = .error .notImplementedError ∧
    (∀ tbl, extract_u_nk xvg T ≠ .ok tbl) ∧
    (∀ tbl, extract_dHdl xvg T ≠ .ok tbl) := by
  have hscan := scanLines_amp xvg ⟨none, [], []⟩ hamp hwf
  have hdf : extract_dataframe xvg = .error .notImplementedError := by
    simp only [extract_dataframe]
    rw [hscan]
    rfl
  refine ⟨hdf, ?_, ?_⟩
  · intro tbl h
    obtain ⟨df0, hd0⟩ := extract_u_nk_ok_dataframe h
    rw [hdf] at hd0
    cases hd0
  · intro tbl h
    obtain ⟨df0, hd0⟩ := extract_dHdl_ok_dataframe h
    rw [hdf] at hd0
    cases hd0

/-- Witness for claim C6: the fixture `multiBlockFile` at `T = 300`. -/
theorem multi_block_fatal_witness :
    ((∃ l ∈ multiBlockFile, strStartsWith (strTrim l) "&" = true) ∧
      (∀ l ∈ multiBlockFile,
        (strContains (strTrim l) "label" && strContains (strTrim l) "xaxis") = true →
        (pyGet? (strSplitOn (strTrim l) "\"") (-2)).isSome = true)) ∧
    (extract_dataframe multiBlockFile = .error .notImplementedError ∧
      (∀ tbl, extract_u_nk multiBlockFile 300 ≠ .ok tbl) ∧
      (∀ tbl, extract_dHdl multiBlockFile 300 ≠ .ok tbl)) :=
  ⟨⟨by decide, by decide⟩, multi_block_fatal multiBlockFile 300 (by decide) (by decide)⟩

/-- Counterexample to claim C6 as stated: `quoteFreeAxisFile` holds a
multi-block `&` line, yet no unsupported-format error is raised -- its
quoteless label/xaxis line raises IndexError at `line.split('"')[-2]` first,
so the extractors fail with IndexError, not NotImplementedError. -/
theorem multi_block_fatal_counterexample :
    (∃ l ∈ quoteFreeAxisFile, strStartsWith (strTrim l) "&" = true) ∧
    extract_dataframe quoteFreeAxisFile = .error .indexError ∧
    extract_u_nk quoteFreeAxisFile 300 = .error .indexError ∧
    extract_dHdl quoteFreeAxisFile 300 = .error .indexError ∧
    extract_dataframe quoteFreeAxisFile ≠ .error .notImplementedError :=
  ⟨by decide, by decide, by decide, by decide, by decide⟩

/-- Claim C9: a file with no line holding both "label" and "xaxis" leaves
the axis name unbound, so the line-table extractor fails (NameError in the
source) and both public extractions raise instead of returning a table,
regardless of any valid data rows. -/
theorem no_axis_label_error
    (xvg : File) (T : ℚ)
    (hno : ∀ l ∈ xvg, ¬ (strContains (strTrim l) "label" = true ∧
      strContains (strTrim l) "xaxis" = true)) :
    (∀ df, extract_dataframe xvg ≠ .ok df) ∧
    (∀ tbl, extract_u_nk xvg T ≠ .ok tbl) ∧
    (∀ tbl, extract_dHdl xvg T ≠ .ok tbl) := by
  have hno' : ∀ l ∈ xvg,
      ¬ ((strContains (strTrim l) "label" && strContains (strTrim l) "xaxis") = true) := by
    intro l hl hb
    exact hno l hl (by simpa [Bool.and_eq_true] using hb)
  have hdf : ∀ df, extract_dataframe xvg ≠ .ok df := by
    intro df h
    simp only [extract_dataframe] at h
    obtain ⟨st, hscan, h⟩ := bindE_ok h
    obtain ⟨xaxis, hx, _⟩ := bindE_ok h
    have hxn : st.xaxis = none := scanLines_no_axis xvg ⟨none, [], []⟩ st hno' hscan
    rw [hxn] at hx
    simp [excE] at hx
  refine ⟨hdf, ?_, ?_⟩
  · intro tbl h
    obtain ⟨df0, hd0⟩ := extract_u_nk_ok_dataframe h
    exact hdf df0 hd0
  · intro tbl h
    obtain ⟨df0, hd0⟩ := extract_dHdl_ok_dataframe h
    exact hdf df0 hd0

/-- Witness for claim C9: the fixture `noAxisFile` (valid data row, no
axis-label line) at `T = 300`. -/
theorem no_axis_label_error_witness :
    (∀ l ∈ noAxisFile, ¬ (strContains (strTrim l) "label" = true ∧
      strContains (strTrim l) "xaxis" = true)) ∧
    ((∀ df, extract_dataframe noAxisFile ≠ .ok df) ∧
      (∀ tbl, extract_u_nk noAxisFile 300 ≠ .ok tbl) ∧
      (∀ tbl, extract_dHdl noAxisFile 300 ≠ .ok tbl)) :=
  ⟨by decide, no_axis_label_error noAxisFile 300 (by decide)⟩

theorem pass2_fold_characterization :
    ∀ (ls : List String) (acc1 : List String) (acc2 : List (List ℚ))
      (L : List String) (S : List (List ℚ)),
      foldME pass2Line (acc1, acc2) ls = .ok (L, S) →
      ∃ L' S', L = acc1 ++ L' ∧ S = acc2 ++ S' ∧
        mapME lamTokE (ls.filter
          (fun l => strContains l "legend" && strContains l "lambda")) = .ok L' ∧
        mapME svEntryE (ls.filter
          (fun l => strContains l "legend" && strContains l " to ")) = .ok S'
  | [], acc1, acc2, L, S, h => by
    simp only [foldME] at h
    cases h
    exact ⟨[], [], by simp, by simp, rfl, rfl⟩
  | l :: ls, acc1, acc2, L, S, h => by
    simp only [foldME] at h
    obtain ⟨st1, h1, h⟩ := bindE_ok h
    simp only [pass2Line] at h1
    by_cases hA : (strContains l "legend" && strContains l "lambda") = true
    · rw [if_pos hA] at h1
      obtain ⟨tok, htok, h1⟩ := bindE_ok h1
      obtain ⟨ls1, hls1, h1⟩ := bindE_ok h1
      cases hls1
      by_cases hB : (strContains l "legend" && strContains l " to ") = true
      · rw [if_pos hB] at h1
        obtain ⟨entry, hentry, h1⟩ := bindE_ok h1
        obtain ⟨svs1, hsvs1, h1⟩ := bindE_ok h1
        cases hsvs1
        cases h1
        obtain ⟨L', S', hl1, hl2, hm1, hm2⟩ :=
          pass2_fold_characterization ls _ _ L S h
        refine ⟨tok :: L', entry :: S', by rw [hl1]; simp, by rw [hl2]; simp, ?_, ?_⟩
        · rw [List.filter_cons, if_pos hA]
          simp only [mapME]
          rw [htok, ok_bind, hm1, ok_bind]
          rfl
        · rw [List.filter_cons, if_pos hB]
          simp only [mapME]
          rw [hentry, ok_bind, hm2, ok_bind]
          rfl
      · rw [if_neg hB] at h1
        obtain ⟨svs1, hsvs1, h1⟩ := bindE_ok h1
        cases hsvs1
        cases h1
        obtain ⟨L', S', hl1, hl2, hm1, hm2⟩ :=
          pass2_fold_characterization ls _ _ L S h
        refine ⟨tok :: L', S', by rw [hl1]; simp, hl2, ?_, ?_⟩
        · rw [List.filter_cons, if_pos hA]
          simp only [mapME]
          rw [htok, ok_bind, hm1, ok_bind]
          rfl
        · rw [List.filter_cons, if_neg hB]
          exact hm2
    · rw [if_neg hA] at h1
      obtain ⟨ls1, hls1, h1⟩ := bindE_ok h1
      cases hls1
      by_cases hB : (strContains l "legend" && strContains l " to ") = true
      · rw [if_pos hB] at h1
        obtain ⟨entry, hentry, h1⟩ := bindE_ok h1
        obtain ⟨svs1, hsvs1, h1⟩ := bindE_ok h1
        cases hsvs1
        cases h1
        obtain ⟨L', S', hl1, hl2, hm1, hm2⟩ :=
          pass2_fold_characterization ls _ _ L S h
        refine ⟨L', entry :: S', hl1, by rw [hl2]; simp, ?_, ?_⟩
        · rw [List.filter_cons, if_neg hA]
          exact hm1
        · rw [List.filter_cons, if_pos hB]
          simp only [mapME]
          rw [hentry, ok_bind, hm2, ok_bind]
          rfl
      · rw [if_neg hB] at h1
        obtain ⟨svs1, hsvs1, h1⟩ := bindE_ok h1
        cases hsvs1
        cases h1
        obtain ⟨L', S', hl1, hl2, hm1, hm2⟩ :=
          pass2_fold_characterization ls _ _ L S h
        refine ⟨L', S', hl1, hl2, ?_, ?_⟩
        · rw [List.filter_cons, if_neg hA]
          exact hm1
        · rw [List.filter_cons, if_neg hB]
          exact hm2

/-- Claim C7 (amended): in the expanded-ensemble metadata pass (which runs
only when no line contains both "subtitle" and "state"), every line
containing both "legend" and "lambda" -- whether or not it is a subtitle
line -- contributes exactly one lambda-schedule name (its first
"lambda"-containing whitespace token, stripped of parentheses and commas),
in file order, and every line containing "legend" and " to " contributes one
state-vector entry (the comma-separated floats after " to "); the mapping is
the position-wise zip of the two sequences. -/
theorem pass2_characterization
    (xvg : File) (L : List String) (S : List (List ℚ))
    (hns : findSubtitleState xvg = none)
    (h : extract_state xvg = .ok (.expanded L S)) :
    mapME lamTokE (xvg.filter
      (fun l => strContains l "legend" && strContains l "lambda")) = .ok L ∧
    mapME svEntryE (xvg.filter
      (fun l => strContains l "legend" && strContains l " to ")) = .ok S := by
  simp only [extract_state, hns] at h
  obtain ⟨r, hr, h⟩ := bindE_ok h
  obtain ⟨r1, r2⟩ := r
  cases h
  obtain ⟨L', S', h1, h2, hm1, hm2⟩ := pass2_fold_characterization xvg [] [] r1 r2 hr
  simp only [List.nil_append] at h1 h2
  subst h1
  subst h2
  exact ⟨hm1, hm2⟩

/-- Counterexample to claim C7 as stated: the single line of
`subtitleLegendFile` is a subtitle line (it contains "subtitle" but not
"state"), yet the expanded-ensemble pass harvests "fep-lambda" from it; the
claim's subtitle-excluding extraction collects nothing. -/
theorem pass2_characterization_counterexample :
    extract_state subtitleLegendFile = .ok (.expanded ["fep-lambda"] []) ∧
    claimPass2Lambdas subtitleLegendFile = [] ∧
    strContains "@ subtitle legend fep-lambda" "subtitle" = true :=
  ⟨by decide, by decide, by decide⟩

/-- Witness for claim C7 (amended): the expanded-ensemble fixture. -/
theorem pass2_characterization_witness :
    (findSubtitleState expandedFile = none ∧
      extract_state expandedFile = .ok (.expanded ["fep-lambda"] [[0], [1]])) ∧
    (mapME lamTokE (expandedFile.filter
        (fun l => strContains l "legend" && strContains l "lambda")) = .ok ["fep-lambda"] ∧
      mapME svEntryE (expandedFile.filter
        (fun l => strContains l "legend" && strContains l " to ")) = .ok [[0], [1]]) :=
  ⟨⟨by decide, by decide⟩,
    pass2_characterization expandedFile ["fep-lambda"] [[0], [1]] (by decide) (by decide)⟩

/-- Claim C10: the lambda-legend test and the " to "-legend test of the
expanded-ensemble pass are evaluated independently on each line, so a single
line containing "legend", "lambda" and " to " contributes one entry to the
lambda schedule and one entry to the state-vector mapping at once. -/
theorem pass2_line_independent
    (line : String) (ls : List String) (svs : List (List ℚ))
    (hleg : strContains line "legend" = true)
    (hlam : strContains line "lambda" = true)
    (hto : strContains line " to " = true)
    (h : pass2Line ([], []) line = .ok (ls, svs)) :
    ls.length = 1 ∧ svs.length = 1 := by
  simp only [pass2Line] at h
  rw [if_pos (by rw [hleg, hlam]; rfl)] at h
  obtain ⟨tok, htok, h⟩ := bindE_ok h
  obtain ⟨ls1, hls1, h⟩ := bindE_ok h
  cases hls1
  rw [if_pos (by rw [hleg, hto]; rfl)] at h
  obtain ⟨entry, hentry, h⟩ := bindE_ok h
  obtain ⟨svs1, hsvs1, h⟩ := bindE_ok h
  cases hsvs1
  cases h
  exact ⟨rfl, rfl⟩

/-- Witness for claim C10: the fixture line `comboLegendLine`, which holds
"legend", "fep-lambda" and " to (0.5, 1.0)" at once and contributes to both
sequences. -/
theorem pass2_line_independent_witness :
    (strContains comboLegendLine "legend" = true ∧
      strContains comboLegendLine "lambda" = true ∧
      strContains comboLegendLine " to " = true ∧
      pass2Line ([], []) comboLegendLine = .ok (["fep-lambda"], [[1/2, 1]])) ∧
    ((["fep-lambda"] : List String).length = 1 ∧ ([[1/2, 1]] : List (List ℚ)).length = 1) :=
  ⟨⟨by decide, by decide, by decide, by decide⟩,
    pass2_line_independent comboLegendLine ["fep-lambda"] [[1/2, 1]]
      (by decide) (by decide) (by decide) (by decide)⟩

/-- Claim C8: each extraction is a pure, deterministic function of the
file's contents and the sampling temperature.  In this embedding both
assemblers are plain functions of `(xvg, T)` with no other state -- faithful
to the source, which rereads the file stream on every call and touches no
module-level mutable data -- so re-extracting the same file twice yields the
identical table for both assemblers. -/
theorem extraction_pure (xvg : File) (T : ℚ) :
    extract_u_nk xvg T = extract_u_nk xvg T ∧
    extract_dHdl xvg T = extract_dHdl xvg T :=
  ⟨rfl, rfl⟩
